import Mathlib

/-!
Verification development for the "80 points online" card-game server.

The server keeps per-room mutable game state and serves socket events
(`create_room`, `join_room`, `sit`, `draw_card`, `auto_deal`, `undo_draw`,
`start_bottom_eight`, `discard_bottom_eight`, `reshuffle_round`,
`play_cards`, `clear_trick`, `disconnect`).  This file gives a shallow
embedding of the data model and of every room operation, translated from
the most complete server source (the one with phases, undo and the
reshuffle eligibility check).  JavaScript objects keyed by socket id are
modelled as association lists kept in insertion order; `deck.pop` takes
the last element of the list, `deck.push` appends, `deck.splice(0, 8)`
takes the first 8 elements, exactly as JS arrays behave.  The
`Math.random` calls inside the Fisher-Yates shuffle are abstracted by an
oracle `Nat → Nat`: step `i` of the loop swaps index `i` with
`oracle i % (i + 1)`, which ranges over exactly the values
`Math.floor(Math.random() * (i + 1))` can take.  Handler functions
return the new room state together with an optional error payload: the
server reports errors with `socket.emit("error_msg", ...)` and leaves
the room as mutated so far, so the state component always reflects every
mutation performed before an early return.  A JavaScript `TypeError`
(property access on `undefined`) aborts the handler; it is modelled as
the error string "TypeError" with the mutations performed so far kept.
-/

namespace Eighty

/-- A playing card as the server constructs it: an identity string, an
optional suit (`null` for jokers), a numeric rank (2..14, 15 = black
joker, 16 = red joker) and an optional joker tag. -/
structure Card where
  id : String
  suit : Option String
  rank : Nat
  jokerType : Option String
deriving DecidableEq, Repr

/-- The four fixed seat labels. -/
inductive Seat where
  | N
  | E
  | S
  | W
deriving DecidableEq, Repr

/-- The seat string as the server stores it. -/
def Seat.str : Seat → String
  | .N => "N"
  | .E => "E"
  | .S => "S"
  | .W => "W"

/-- The room phases the server assigns to `room.phase`. -/
inductive Phase where
  | waiting
  | drawing
  | awaiting_bottom_eight
  | discarding_bottom_eight
  | playing
deriving DecidableEq, Repr

/-- `room.lastAction`: the server only ever stores draw records
`{ type: "draw", seat, cardId }`, so the constant `type` field is left
implicit. -/
structure LastAction where
  seat : Seat
  cardId : String
deriving DecidableEq, Repr

/-- The `room.seats` object with its four fixed keys. -/
structure SeatMap where
  n : Option String
  e : Option String
  s : Option String
  w : Option String
deriving DecidableEq, Repr

def SeatMap.get (m : SeatMap) : Seat → Option String
  | .N => m.n
  | .E => m.e
  | .S => m.s
  | .W => m.w

def SeatMap.set (m : SeatMap) : Seat → Option String → SeatMap
  | .N, v => { m with n := v }
  | .E, v => { m with e := v }
  | .S, v => { m with s := v }
  | .W, v => { m with w := v }

/-- All seats in the iteration order of `Object.entries(room.seats)`. -/
def seatList : List Seat := [.N, .E, .S, .W]

/-! ### Association lists for the JS objects keyed by socket id -/

/-- JS property read `obj[k]` (first matching key). -/
def alistGet (k : String) : List (String × α) → Option α
  | [] => none
  | (k', v) :: t => if k' = k then some v else alistGet k t

/-- JS property write `obj[k] = v`: overwrite in place if the key
exists, otherwise append (JS objects keep insertion order). -/
def alistSet (k : String) (v : α) : List (String × α) → List (String × α)
  | [] => [(k, v)]
  | (k', v') :: t => if k' = k then (k, v) :: t else (k', v') :: alistSet k v t

/-- JS `obj[k] = obj[k] || init`: keep an existing entry, create the
entry with `init` otherwise. -/
def alistEnsure (k : String) (init : α) (l : List (String × α)) : List (String × α) :=
  match alistGet k l with
  | some _ => l
  | none => l ++ [(k, init)]

/-- JS `delete obj[k]`. -/
def alistErase (k : String) (l : List (String × α)) : List (String × α) :=
  l.filter (fun p => !(p.1 == k))

/-! ### Deck builder (`buildTwoDecks`) -/

def suits : List String := ["S", "H", "D", "C"]

def rankList : List Nat := [2, 3, 4, 5, 6, 7, 8, 9, 10, 11, 12, 13, 14]

/-- One deck copy `d` of the inner loops of `buildTwoDecks`: 52 suited
cards followed by the two jokers.  `idCounter` starts at `54 * d`
because each copy pushes exactly 54 cards and the counter is shared by
both copies within one call. -/
def oneDeck (d : Nat) : List Card :=
  (suits.enum.flatMap (fun si =>
    rankList.enum.map (fun ri =>
      { id := "c_" ++ toString d ++ "_" ++ toString (54 * d + 13 * si.1 + ri.1),
        suit := some si.2, rank := ri.2, jokerType := none })))
  ++ [{ id := "j_" ++ toString d ++ "_b_" ++ toString (54 * d + 52),
        suit := none, rank := 15, jokerType := some "BLACK" },
      { id := "j_" ++ toString d ++ "_r_" ++ toString (54 * d + 53),
        suit := none, rank := 16, jokerType := some "RED" }]

/-- The 108-card list built by `buildTwoDecks` before shuffling. -/
def baseDeck : List Card := oneDeck 0 ++ oneDeck 1

/-- One swap `[a[i], a[j]] = [a[j], a[i]]` on the array model. -/
def swapL (l : List Card) (i j : Nat) : List Card :=
  match l.get? i, l.get? j with
  | some x, some y => (l.set i y).set j x
  | _, _ => l

/-- The Fisher-Yates loop: `for (let i = a.length - 1; i > 0; i--)` with
`j = Math.floor(Math.random() * (i + 1))` abstracted to
`oracle i % (i + 1)`. -/
def fyLoop (oracle : Nat → Nat) : Nat → List Card → List Card
  | 0, l => l
  | i + 1, l => fyLoop oracle i (swapL l (i + 1) (oracle (i + 1) % (i + 2)))

/-- `shuffle(arr)` with the randomness oracle made explicit. -/
def shuffle (l : List Card) (oracle : Nat → Nat) : List Card :=
  match l.length with
  | 0 => l
  | n + 1 => fyLoop oracle n l

/-- `buildTwoDecks()`: build the fixed 108-card list, then shuffle.  The
id counter is a local variable of the function, so it restarts at 0 on
every invocation. -/
def buildTwoDecks (oracle : Nat → Nat) : List Card :=
  shuffle baseDeck oracle

/-! ### Remaining pure helpers -/

/-- `getNextSeat` on the `Seat` type, as used by the handlers (they only
ever pass one of the four labels). -/
def nextSeat : Seat → Seat
  | .N => .E
  | .E => .S
  | .S => .W
  | .W => .N

/-- `getNextSeat` exactly as written over strings: `order.indexOf`
returns `-1` when the label is absent, so the lookup index becomes
`(-1 + 1) % 4 = 0`. -/
def getNextSeat (currentSeat : String) : String :=
  let order := ["N", "E", "S", "W"]
  let idx : Int := if order.contains currentSeat then (order.indexOf currentSeat : Int) else -1
  order.getD ((idx + 1) % 4).toNat ""

/-- `pointsOf`: rank 5 counts 5, rank 10 counts 10, rank 13 counts 10. -/
def pointsOf (cards : List Card) : Nat :=
  cards.foldl
    (fun p c =>
      if c.rank = 5 then p + 5
      else if c.rank = 10 then p + 10
      else if c.rank = 13 then p + 10
      else p) 0

/-! ### The room aggregate -/

/-- The per-room mutable state object. -/
structure Room where
  code : String
  seats : SeatMap
  playerNames : List (String × String)
  hands : List (String × List Card)
  table : List (String × List Card)
  discards : List Card
  deck : List Card
  bottomEight : List Card
  trumpSuit : Option String
  startingPlayer : Option Seat
  currentTurn : Option Seat
  phase : Phase
  started : Bool
  attackersScore : Nat
  lastAction : Option LastAction
deriving DecidableEq, Repr

/-- `seatOf(room, socketId)`: scan `Object.entries(room.seats)` in key
order N, E, S, W and return the first seat held by this socket. -/
def seatOf (room : Room) (sid : String) : Option Seat :=
  seatList.find? (fun st => room.seats.get st == some sid)

/-- JS truthiness of an optional string (`null` and `""` are falsy). -/
def strFalsy : Option String → Bool
  | none => true
  | some s => s == ""

/-- Number of occupied seats (`Object.values(room.seats).filter(Boolean).length`). -/
def filledCount (room : Room) : Nat :=
  (seatList.filter (fun st => (room.seats.get st).isSome)).length

/-- The room object literal in the `create_room` handler, including the
entries the handler adds for the creating socket. -/
def initRoom (code creator : String) (deck : List Card) : Room where
  code := code
  seats := ⟨none, none, none, none⟩
  playerNames := []
  hands := [(creator, [])]
  table := [(creator, [])]
  discards := []
  deck := deck
  bottomEight := []
  trumpSuit := none
  startingPlayer := none
  currentTurn := none
  phase := .waiting
  started := false
  attackersScore := 0
  lastAction := none

/-! ### Handlers.  Each returns the room as mutated together with an
optional `error_msg` payload. -/

/-- `join_room` (after the registry lookup succeeded). -/
def joinRoomH (room : Room) (sid : String) : Room :=
  { room with
    hands := alistEnsure sid [] room.hands
    table := alistEnsure sid [] room.table }

/-- The loop body `if (sid) room.table[sid] = room.table[sid] || []` (and
the same for hands) in `ensureGameStartIfReady`. -/
def ensureSeatEntry (r : Room) (st : Seat) : Room :=
  match r.seats.get st with
  | none => r
  | some sid =>
    { r with
      table := alistEnsure sid [] r.table
      hands := alistEnsure sid [] r.hands }

/-- `ensureGameStartIfReady`. -/
def ensureGameStartIfReady (room : Room) : Room :=
  if filledCount room = 4 ∧ room.started = false then
    seatList.foldl ensureSeatEntry
      { room with
        started := true
        phase := .drawing
        currentTurn := some .N
        bottomEight := room.deck.take 8
        deck := room.deck.drop 8
        trumpSuit := none
        startingPlayer := none
        lastAction := none }
  else room

/-- The seat-vacating scan `for (const s of [...]) if (room.seats[s] ===
socket.id) room.seats[s] = null`, shared by `sit` and `disconnect`. -/
def vacateSeats (seats : SeatMap) (sid : String) : SeatMap :=
  seatList.foldl (fun m st => if m.get st = some sid then m.set st none else m)
    seats

/-- The body of `sit` after the seat-taken check. -/
def sitBody (room : Room) (sid : String) (seat : Seat) (name : String) :
    Room × Option String :=
  if name ≠ "" then
    (ensureGameStartIfReady
      { room with
        seats := (vacateSeats room.seats sid).set seat (some sid)
        playerNames := alistSet sid name room.playerNames }, none)
  else
    (ensureGameStartIfReady
      { room with seats := (vacateSeats room.seats sid).set seat (some sid) },
      none)

/-- `sit` (seat validity is enforced by the `Seat` type; the handler
silently drops invalid labels). -/
def sitH (room : Room) (sid : String) (seat : Seat) (name : String) :
    Room × Option String :=
  match room.seats.get seat with
  | some current =>
    if current ≠ sid then (room, some "Seat already taken.")
    else sitBody room sid seat name
  | none => sitBody room sid seat name

/-- `drawOneForSeat`. -/
def drawOneForSeat (room : Room) (seat : Seat) : Room × Option String :=
  match room.seats.get seat with
  | none => (room, some "Seat empty.")
  | some sid =>
    match alistGet sid room.hands with
    | none => (room, some "TypeError")
    | some hand =>
      if hand.length ≥ 25 then (room, some "Hand full.")
      else if room.deck.length = 0 then (room, some "Deck empty.")
      else
        match room.deck.getLast? with
        | none => (room, some "Deck empty.")
        | some card =>
          if card.rank = 2 ∧ strFalsy room.trumpSuit then
            ({ room with
                deck := room.deck.dropLast
                hands := alistSet sid (hand ++ [card]) room.hands
                trumpSuit := card.suit
                startingPlayer := some seat
                lastAction := some ⟨seat, card.id⟩ }, none)
          else
            ({ room with
                deck := room.deck.dropLast
                hands := alistSet sid (hand ++ [card]) room.hands
                lastAction := some ⟨seat, card.id⟩ }, none)

/-- `finishDrawingPhase`. -/
def finishDrawingPhase (room : Room) : Room :=
  { room with phase := .awaiting_bottom_eight, currentTurn := none }

/-- `draw_card`. -/
def drawCardH (room : Room) (sid : String) : Room × Option String :=
  if room.phase ≠ .drawing then (room, some "Not in drawing phase.")
  else
    match seatOf room sid with
    | none => (room, some "You must be seated.")
    | some seat =>
      if room.currentTurn ≠ some seat then (room, some "Not your turn!")
      else if room.deck.length = 0 then (finishDrawingPhase room, none)
      else
        match drawOneForSeat room seat with
        | (r, some e) => (r, some e)
        | (r, none) =>
          if r.deck.length = 0 then
            (finishDrawingPhase { r with currentTurn := some (nextSeat seat) }, none)
          else
            ({ r with currentTurn := some (nextSeat seat) }, none)

/-- The `auto_deal` while loop.  The `Bool` result is `true` when the
loop aborted on a JS `TypeError` (missing hand entry for a seated
socket), in which case the rest of the handler does not run. -/
def autoDealLoop : Nat → Room → Seat → Room × Seat × Bool
  | 0, room, seat => (room, seat, false)
  | fuel + 1, room, seat =>
    if room.deck.length = 0 then (room, seat, false)
    else
      match room.seats.get seat with
      | none => (room, seat, false)
      | some sid =>
        match alistGet sid room.hands with
        | none => (room, seat, true)
        | some hand =>
          let room := if hand.length < 25 then (drawOneForSeat room seat).1 else room
          autoDealLoop fuel room (nextSeat seat)

/-- `auto_deal`.  The JS handler never identifies the caller: any socket
may trigger the deal, so the socket id parameter is unused. -/
def autoDealH (room : Room) (_sid : String) : Room × Option String :=
  if room.phase ≠ .drawing then (room, some "Not in drawing phase.")
  else if filledCount room ≠ 4 then
    (room, some "Need 4 players seated to auto-deal.")
  else
    match autoDealLoop 2000 room (room.currentTurn.getD .N) with
    | (r, _, true) => (r, some "TypeError")
    | (r, seat, false) =>
      (finishDrawingPhase { r with currentTurn := some seat }, none)

/-- `hand.findIndex(c => c.id === cardId)` followed by
`hand.splice(idx, 1)`: the removed card and the remaining hand. -/
def removeFirstById (cardId : String) : List Card → Option (Card × List Card)
  | [] => none
  | c :: t =>
    if c.id = cardId then some (c, t)
    else (removeFirstById cardId t).map (fun p => (p.1, c :: p.2))

/-- `undo_draw`. -/
def undoDrawH (room : Room) (sid : String) : Room × Option String :=
  match room.lastAction with
  | none => (room, some "Nothing to undo.")
  | some last =>
    if room.phase ≠ .drawing then
      (room, some "Undo only allowed during drawing phase.")
    else if room.seats.get last.seat ≠ some sid then
      (room, some "You can only undo your own draw.")
    else
      match alistGet sid room.hands with
      | none => (room, some "TypeError")
      | some hand =>
        match removeFirstById last.cardId hand with
        | none => (room, none)
        | some (card, hand') =>
          if room.startingPlayer = some last.seat then
            ({ room with
                hands := alistSet sid hand' room.hands
                deck := room.deck ++ [card]
                trumpSuit := none
                startingPlayer := none
                currentTurn := some last.seat
                lastAction := none }, none)
          else
            ({ room with
                hands := alistSet sid hand' room.hands
                deck := room.deck ++ [card]
                currentTurn := some last.seat
                lastAction := none }, none)

/-- `start_bottom_eight`. -/
def startBottomEightH (room : Room) (sid : String) : Room × Option String :=
  if room.phase ≠ .awaiting_bottom_eight then
    (room, some "Not time for bottom 8 yet.")
  else if room.startingPlayer = none then
    (room, some "Starting player not set (no 2 drawn yet).")
  else if seatOf room sid ≠ room.startingPlayer then
    (room, some "Only starting player can pick up bottom 8.")
  else
    match alistGet sid room.hands with
    | none => (room, some "TypeError")
    | some hand =>
      ({ room with
          hands := alistSet sid (hand ++ room.bottomEight) room.hands
          bottomEight := []
          phase := .discarding_bottom_eight }, none)

/-- The splice loop of `discard_bottom_eight` / `play_cards`: for each
identifier in order, remove the first matching card from the hand.
Returns the remaining hand and the removed cards in identifier order. -/
def spliceMany : List String → List Card → List Card × List Card
  | [], hand => (hand, [])
  | cid :: rest, hand =>
    match removeFirstById cid hand with
    | none => spliceMany rest hand
    | some (c, hand') =>
      let p := spliceMany rest hand'
      (p.1, c :: p.2)

/-- `discard_bottom_eight`.  Note that the splice loop runs before the
`discarded.length !== 8` check, so on that error path the matched cards
have already left the hand (and are dropped). -/
def discardBottomEightH (room : Room) (sid : String) (cardIds : List String) :
    Room × Option String :=
  if room.phase ≠ .discarding_bottom_eight then
    (room, some "Not discarding bottom 8 right now.")
  else if seatOf room sid ≠ room.startingPlayer then
    (room, some "Only starting player can discard bottom 8.")
  else if cardIds.length ≠ 8 then
    (room, some "Must discard exactly 8 cards.")
  else
    match alistGet sid room.hands with
    | none => (room, some "TypeError")
    | some hand =>
      if (spliceMany cardIds hand).2.length ≠ 8 then
        ({ room with hands := alistSet sid (spliceMany cardIds hand).1 room.hands },
          some "Could not find all 8 selected cards in hand.")
      else
        ({ room with
            hands := alistSet sid (spliceMany cardIds hand).1 room.hands
            bottomEight := (spliceMany cardIds hand).2
            phase := .playing
            currentTurn := room.startingPlayer }, none)

/-- The loop body of the hand-clearing pass in `reshuffle_round`. -/
def clearSeatEntry (r : Room) (st : Seat) : Room :=
  match r.seats.get st with
  | none => r
  | some psid =>
    { r with
      hands := alistSet psid [] r.hands
      table := alistSet psid [] r.table }

/-- `reshuffle_round`. -/
def reshuffleRoundH (room : Room) (sid : String) (oracle : Nat → Nat) :
    Room × Option String :=
  if room.phase ≠ .discarding_bottom_eight then
    (room, some "Reshuffle only allowed during bottom-8 exchange.")
  else if seatOf room sid ≠ room.startingPlayer then
    (room, some "Only starting player can reshuffle.")
  else if pointsOf ((alistGet sid room.hands).getD []) ≥ 25 then
    (room, some "Reshuffle only allowed if you have <25 points.")
  else
    (seatList.foldl clearSeatEntry
      { room with
        deck := (buildTwoDecks oracle).drop 8
        bottomEight := (buildTwoDecks oracle).take 8
        discards := []
        table := []
        lastAction := none
        trumpSuit := none
        startingPlayer := none
        phase := .drawing
        currentTurn := some .N }, none)

/-- `play_cards`.  A missing room phase silently returns (no error
payload).  `room.hands[socket.id] || []` makes a fresh empty array when
the entry is missing, so in that case the splices touch nothing. -/
def playCardsH (room : Room) (sid : String) (cardIds : List String) :
    Room × Option String :=
  if room.phase ≠ .playing then (room, none)
  else
    match seatOf room sid with
    | none => (room, some "You must be seated.")
    | some seat =>
      if room.currentTurn ≠ some seat then (room, some "Not your turn!")
      else
        match alistGet sid room.hands with
        | some hand =>
          ({ room with
              hands := alistSet sid (spliceMany cardIds hand).1 room.hands
              table := alistSet sid (spliceMany cardIds hand).2 room.table
              currentTurn := some (nextSeat seat) }, none)
        | none =>
          ({ room with
              table := alistSet sid (spliceMany cardIds []).2 room.table
              currentTurn := some (nextSeat seat) }, none)

/-- `clear_trick`: move every table entry into the discards, in table
insertion order, then empty every entry. -/
def clearTrickH (room : Room) : Room :=
  { room with
    discards := room.discards ++ room.table.flatMap (fun p => p.2)
    table := room.table.map (fun p => (p.1, ([] : List Card))) }

/-- The per-room part of the `disconnect` sweep (the hand entry is
checked after the seats are vacated, but seat clearing never changes the
hands object). -/
def disconnectH (room : Room) (sid : String) : Room :=
  if (alistGet sid room.hands).isSome then
    { room with
      seats := vacateSeats room.seats sid
      hands := alistErase sid room.hands
      table := alistErase sid room.table
      playerNames := alistErase sid room.playerNames }
  else { room with seats := vacateSeats room.seats sid }

/-! ### State projectors -/

/-- The view `safeRoomStateFor` builds in the complete server version:
other hands appear only as counts in `handCounts`, the bottom pile only
as `bottomEightCount`. -/
structure SafeState where
  code : String
  seats : SeatMap
  playerNames : List (String × String)
  currentTurn : Option Seat
  trumpSuit : Option String
  startingPlayer : Option Seat
  bottomEightCount : Nat
  phase : Phase
  started : Bool
  deckCount : Nat
  discardsCount : Nat
  table : List (String × List Card)
  yourHand : List Card
  handCounts : List (String × Nat)
  attackersScore : Nat
  lastAction : Option LastAction
  canReshuffle : Bool
  yourPoints : Nat
deriving DecidableEq, Repr

/-- `safeRoomStateFor(socketId, room)` of the complete server version. -/
def safeRoomStateFor (sid : String) (room : Room) : SafeState where
  code := room.code
  seats := room.seats
  playerNames := room.playerNames
  currentTurn := room.currentTurn
  trumpSuit := room.trumpSuit
  startingPlayer := room.startingPlayer
  bottomEightCount := room.bottomEight.length
  phase := room.phase
  started := room.started
  deckCount := room.deck.length
  discardsCount := room.discards.length
  table := room.table
  yourHand := (alistGet sid room.hands).getD []
  handCounts := room.hands.map (fun p => (p.1, p.2.length))
  attackersScore := room.attackersScore
  lastAction := room.lastAction
  canReshuffle :=
    room.phase == .discarding_bottom_eight
      && room.startingPlayer.isSome
      && seatOf room sid == room.startingPlayer
      && decide (pointsOf ((alistGet sid room.hands).getD []) < 25)
  yourPoints := pointsOf ((alistGet sid room.hands).getD [])

/-- The view built by `safeRoomStateFor` in `src/server/index.js`: same
shape except that the full `bottomEight` card list is included. -/
structure SafeStateIdx where
  code : String
  seats : SeatMap
  playerNames : List (String × String)
  currentTurn : Option Seat
  trumpSuit : Option String
  startingPlayer : Option Seat
  bottomEight : List Card
  phase : Phase
  started : Bool
  deckCount : Nat
  discardsCount : Nat
  table : List (String × List Card)
  yourHand : List Card
  handCounts : List (String × Nat)
  attackersScore : Nat
  lastAction : Option LastAction
deriving DecidableEq, Repr

/-- `safeRoomStateFor(socketId, room)` as written in
`src/server/index.js` (it ships `room.bottomEight` itself). -/
def safeRoomStateForIdx (sid : String) (room : Room) : SafeStateIdx where
  code := room.code
  seats := room.seats
  playerNames := room.playerNames
  currentTurn := room.currentTurn
  trumpSuit := room.trumpSuit
  startingPlayer := room.startingPlayer
  bottomEight := room.bottomEight
  phase := room.phase
  started := room.started
  deckCount := room.deck.length
  discardsCount := room.discards.length
  table := room.table
  yourHand := (alistGet sid room.hands).getD []
  handCounts := room.hands.map (fun p => (p.1, p.2.length))
  attackersScore := room.attackersScore
  lastAction := room.lastAction

/-! ### Reachability -/

/-- One inbound event applied to a room.  The registry lookup, the
transport and the broadcast are outside the room state; every handler
below is the room-mutating part of the corresponding socket event. -/
inductive Step : Room → Room → Prop where
  | join (r : Room) (sid : String) : Step r (joinRoomH r sid)
  | sit (r : Room) (sid : String) (seat : Seat) (name : String) :
      Step r (sitH r sid seat name).1
  | draw (r : Room) (sid : String) : Step r (drawCardH r sid).1
  | autoDeal (r : Room) (sid : String) : Step r (autoDealH r sid).1
  | undo (r : Room) (sid : String) : Step r (undoDrawH r sid).1
  | startB8 (r : Room) (sid : String) : Step r (startBottomEightH r sid).1
  | discardB8 (r : Room) (sid : String) (ids : List String) :
      Step r (discardBottomEightH r sid ids).1
  | reshuffle (r : Room) (sid : String) (oracle : Nat → Nat) :
      Step r (reshuffleRoundH r sid oracle).1
  | play (r : Room) (sid : String) (ids : List String) :
      Step r (playCardsH r sid ids).1
  | clear (r : Room) : Step r (clearTrickH r)
  | disconnect (r : Room) (sid : String) : Step r (disconnectH r sid)

/-- A room state is reachable when some sequence of events leads to it
from a freshly created room. -/
def Reachable (r : Room) : Prop :=
  ∃ code creator oracle,
    Relation.ReflTransGen Step (initRoom code creator (buildTwoDecks oracle)) r

/-! ### Card accounting -/

/-- The number of cards recorded in a room:
`drawPile + Σ hands + bottomPile + Σ table + discards`. -/
def cardTotal (room : Room) : Nat :=
  room.deck.length
    + (room.hands.map (fun p => p.2.length)).sum
    + room.bottomEight.length
    + (room.table.map (fun p => p.2.length)).sum
    + room.discards.length

/-- Every card recorded anywhere in a room. -/
def roomCards (room : Room) : List Card :=
  room.deck ++ room.bottomEight ++ room.discards
    ++ room.hands.flatMap (fun p => p.2)
    ++ room.table.flatMap (fun p => p.2)

/-! ### The shuffle permutes the deck -/

theorem cons_set_perm (t : List Card) :
    ∀ (k : Nat) (y a : Card), t.get? k = some y →
      List.Perm (y :: t.set k a) (a :: t) := by
  induction t with
  | nil => intro k y a h; simp at h
  | cons b t ih =>
    intro k y a h
    cases k with
    | zero =>
      have hb : b = y := by simpa using h
      subst hb
      exact List.Perm.swap a b t
    | succ k =>
      have h' : t.get? k = some y := by simpa using h
      have s1 : List.Perm (y :: b :: t.set k a) (b :: y :: t.set k a) :=
        List.Perm.swap b y _
      have s2 : List.Perm (b :: y :: t.set k a) (b :: a :: t) :=
        (ih k y a h').cons b
      have s3 : List.Perm (b :: a :: t) (a :: b :: t) := List.Perm.swap a b t
      exact s1.trans (s2.trans s3)

theorem set_set_perm (l : List Card) :
    ∀ (i j : Nat) (x y : Card), l.get? i = some x → l.get? j = some y →
      List.Perm ((l.set i y).set j x) l := by
  induction l with
  | nil => intro i j x y h1 _; simp at h1
  | cons b t ih =>
    intro i j x y h1 h2
    cases i with
    | zero =>
      have hb : b = x := by simpa using h1
      subst hb
      cases j with
      | zero =>
        have hby : b = y := by simpa using h2
        subst hby
        exact List.Perm.refl _
      | succ j =>
        have h2' : t.get? j = some y := by simpa using h2
        exact cons_set_perm t j y b h2'
    | succ i =>
      have h1' : t.get? i = some x := by simpa using h1
      cases j with
      | zero =>
        have hb : b = y := by simpa using h2
        subst hb
        exact cons_set_perm t i x b h1'
      | succ j =>
        have h2' : t.get? j = some y := by simpa using h2
        exact (ih i j x y h1' h2').cons b

theorem swapL_perm (l : List Card) (i j : Nat) : List.Perm (swapL l i j) l := by
  unfold swapL
  split
  · next x y h1 h2 => exact set_set_perm l i j x y h1 h2
  · exact List.Perm.refl l

theorem fyLoop_perm (oracle : Nat → Nat) :
    ∀ (n : Nat) (l : List Card), List.Perm (fyLoop oracle n l) l := by
  intro n
  induction n with
  | zero => intro l; exact List.Perm.refl l
  | succ n ih =>
    intro l
    exact (ih _).trans (swapL_perm l (n + 1) (oracle (n + 1) % (n + 2)))

theorem shuffle_perm (l : List Card) (oracle : Nat → Nat) :
    List.Perm (shuffle l oracle) l := by
  unfold shuffle
  split
  · exact List.Perm.refl l
  · exact fyLoop_perm oracle _ l

theorem buildTwoDecks_perm (oracle : Nat → Nat) :
    List.Perm (buildTwoDecks oracle) baseDeck :=
  shuffle_perm baseDeck oracle

/-- The handlers call `getNextSeat` only on the four seat labels, where
the string function and the `Seat`-typed rotation agree. -/
theorem nextSeat_agrees (st : Seat) : getNextSeat st.str = (nextSeat st).str := by
  cases st <;> rfl

theorem baseDeck_combo_counts : ∀ s ∈ suits, ∀ rk ∈ rankList,
    baseDeck.countP
      (fun c => c.suit == some s && c.rank == rk && c.jokerType == none) = 2 := by
  decide

/-- C6: every call of `buildShuffledDeck` returns exactly 108 cards with
pairwise-distinct identity strings; each of the 52 suit/rank
combinations (suits S, H, D, C; ranks 2..14) occurs exactly twice, and
there are exactly 2 low jokers (rank 15) and 2 high jokers (rank 16),
both suitless. -/
theorem buildShuffledDeck_spec (oracle : Nat → Nat) :
    (buildTwoDecks oracle).length = 108 ∧
    ((buildTwoDecks oracle).map Card.id).Nodup ∧
    (∀ s ∈ suits, ∀ rk ∈ rankList,
      (buildTwoDecks oracle).countP
        (fun c => c.suit == some s && c.rank == rk && c.jokerType == none) = 2) ∧
    (buildTwoDecks oracle).countP (fun c => c.rank == 15 && c.suit == none) = 2 ∧
    (buildTwoDecks oracle).countP (fun c => c.rank == 16 && c.suit == none) = 2 := by
  have hperm := buildTwoDecks_perm oracle
  refine ⟨?_, ?_, ?_, ?_, ?_⟩
  · rw [hperm.length_eq]; decide
  · exact ((hperm.map Card.id).nodup_iff).mpr (by decide)
  · intro s hs rk hrk
    rw [hperm.countP_eq]
    exact baseDeck_combo_counts s hs rk hrk
  · rw [hperm.countP_eq]; decide
  · rw [hperm.countP_eq]; decide

/-- C6 witness: the claim instantiated at a concrete oracle, a concrete
suit and a concrete rank. -/
theorem buildShuffledDeck_spec_witness :
    "S" ∈ suits ∧ (2 : Nat) ∈ rankList ∧
    (buildTwoDecks (fun i => i)).countP
      (fun c => c.suit == some "S" && c.rank == 2 && c.jokerType == none) = 2 :=
  ⟨by decide, by decide,
    (buildShuffledDeck_spec (fun i => i)).2.2.1 "S" (by decide) 2 (by decide)⟩

/-- C7 counterexample: the claim says identity strings are never reused
across invocations, but the identity counter is local to each call, so
two distinct invocations (here with different randomness) both emit the
identity "c_0_0" — the id sets are not disjoint. -/
theorem deck_ids_reused_cex :
    "c_0_0" ∈ (buildTwoDecks (fun _ => 0)).map Card.id ∧
    "c_0_0" ∈ (buildTwoDecks (fun i => i)).map Card.id := by
  constructor
  · exact ((buildTwoDecks_perm (fun _ => 0)).map Card.id).mem_iff.mpr (by decide)
  · exact ((buildTwoDecks_perm (fun i => i)).map Card.id).mem_iff.mpr (by decide)

/-- C7 amended: the id counter restarts at 0 on every invocation, so any
two invocations of `buildShuffledDeck` produce the same multiset of 108
card identities (they are reused every call, never fresh); within one
invocation the identities are pairwise distinct. -/
theorem deck_ids_across_calls_amended (o1 o2 : Nat → Nat) :
    List.Perm ((buildTwoDecks o1).map Card.id) ((buildTwoDecks o2).map Card.id) ∧
    ((buildTwoDecks o1).map Card.id).Nodup :=
  ⟨((buildTwoDecks_perm o1).map Card.id).trans
      (((buildTwoDecks_perm o2).map Card.id).symm),
    (((buildTwoDecks_perm o1).map Card.id).nodup_iff).mpr (by decide)⟩

/-- C8 counterexample: on the out-of-range label "X", `indexOf` yields
-1, the lookup index becomes 0, and the function returns the seat "N"
instead of failing. -/
theorem getNextSeat_invalid_cex :
    getNextSeat "X" = "N" ∧ "N" ∈ ["N", "E", "S", "W"] := by
  constructor
  · rfl
  · decide

/-- C8 amended: `getNextSeat` maps N to E, E to S, S to W, W to N, and
maps every label outside the set to "N" (it never fails: `indexOf`
returns -1 and the wrapped index 0 selects "N"). -/
theorem getNextSeat_amended :
    getNextSeat "N" = "E" ∧ getNextSeat "E" = "S" ∧ getNextSeat "S" = "W" ∧
    getNextSeat "W" = "N" ∧
    ∀ s : String, s ∉ (["N", "E", "S", "W"] : List String) → getNextSeat s = "N" := by
  refine ⟨rfl, rfl, rfl, rfl, ?_⟩
  intro s hs
  have h1 : ¬(s = "N" ∨ s = "E" ∨ s = "S" ∨ s = "W") := by simpa using hs
  simp [getNextSeat, h1]

/-- C8 witness: the amended fallback clause applied at the concrete
label "Z". -/
theorem getNextSeat_amended_witness :
    "Z" ∉ (["N", "E", "S", "W"] : List String) ∧ getNextSeat "Z" = "N" :=
  ⟨by decide, getNextSeat_amended.2.2.2.2 "Z" (by decide)⟩

/-! ### Bookkeeping lemmas about the association-list operations -/

theorem alistGet_alistSet_self (k : String) (v : List Card) :
    ∀ l, alistGet k (alistSet k v l) = some v := by
  intro l
  induction l with
  | nil => simp [alistSet, alistGet]
  | cons hd t ih =>
    by_cases h : hd.1 = k
    · simp [alistSet, alistGet, h]
    · simp [alistSet, alistGet, h, ih]

theorem mem_alistSet_entries {p : String × List Card} {k : String} {v : List Card} :
    ∀ {l : List (String × List Card)},
      p ∈ alistSet k v l → p = (k, v) ∨ p ∈ l := by
  intro l
  induction l with
  | nil => simp [alistSet]
  | cons hd t ih =>
    obtain ⟨k', v'⟩ := hd
    by_cases h : k' = k
    · simp only [alistSet, if_pos h, List.mem_cons]
      rintro (rfl | hp)
      · exact Or.inl rfl
      · exact Or.inr (Or.inr hp)
    · simp only [alistSet, if_neg h, List.mem_cons]
      rintro (rfl | hp)
      · exact Or.inr (Or.inl rfl)
      · rcases ih hp with h1 | h1
        · exact Or.inl h1
        · exact Or.inr (Or.inr h1)

theorem mem_flatMap_alistSet {x : Card} {k : String} {v : List Card}
    {l : List (String × List Card)} :
    x ∈ (alistSet k v l).flatMap (fun p => p.2) →
    x ∈ v ∨ x ∈ l.flatMap (fun p => p.2) := by
  intro hx
  rw [List.mem_flatMap] at hx
  obtain ⟨p, hp, hxp⟩ := hx
  rcases mem_alistSet_entries hp with rfl | hp'
  · exact Or.inl hxp
  · exact Or.inr (List.mem_flatMap.mpr ⟨p, hp', hxp⟩)

theorem flatMap_alistEnsure_nil (k : String) (l : List (String × List Card)) :
    (alistEnsure k [] l).flatMap (fun p => p.2) = l.flatMap (fun p => p.2) := by
  unfold alistEnsure
  split
  · rfl
  · simp

theorem mem_flatMap_alistErase {x : Card} {k : String}
    {l : List (String × List Card)} :
    x ∈ (alistErase k l).flatMap (fun p => p.2) →
    x ∈ l.flatMap (fun p => p.2) := by
  simp only [alistErase, List.mem_flatMap]
  rintro ⟨p, hp, hx⟩
  exact ⟨p, (List.mem_filter.mp hp).1, hx⟩

theorem alistGet_mem {k : String} {v : List Card} :
    ∀ {l : List (String × List Card)}, alistGet k l = some v → (k, v) ∈ l := by
  intro l
  induction l with
  | nil => simp [alistGet]
  | cons hd t ih =>
    obtain ⟨k', v'⟩ := hd
    by_cases h : k' = k
    · subst h
      intro hm
      rw [alistGet, if_pos rfl] at hm
      have hv := Option.some.inj hm
      subst hv
      exact List.mem_cons_self _ _
    · simp only [alistGet, if_neg h]
      intro hm
      exact List.mem_cons_of_mem _ (ih hm)

theorem removeFirstById_mem {cid : String} :
    ∀ {hand : List Card} {c : Card} {rest : List Card},
      removeFirstById cid hand = some (c, rest) →
      c ∈ hand ∧ ∀ x ∈ rest, x ∈ hand := by
  intro hand
  induction hand with
  | nil => intro c rest h; simp [removeFirstById] at h
  | cons b t ih =>
    intro c rest h
    by_cases hb : b.id = cid
    · rw [removeFirstById, if_pos hb] at h
      have heq := Option.some.inj h
      obtain ⟨rfl, rfl⟩ : b = c ∧ t = rest :=
        ⟨congrArg Prod.fst heq, congrArg Prod.snd heq⟩
      exact ⟨List.mem_cons_self _ _, fun x hx => List.mem_cons_of_mem _ hx⟩
    · rw [removeFirstById, if_neg hb] at h
      cases hrec : removeFirstById cid t with
      | none => rw [hrec] at h; simp at h
      | some p =>
        obtain ⟨c', rest'⟩ := p
        rw [hrec] at h
        have heq := Option.some.inj h
        have hc : c' = c := congrArg Prod.fst heq
        have hr : b :: rest' = rest := congrArg Prod.snd heq
        subst hc
        subst hr
        obtain ⟨h1, h2⟩ := ih hrec
        refine ⟨List.mem_cons_of_mem _ h1, ?_⟩
        intro x hx
        rcases List.mem_cons.mp hx with rfl | hx'
        · exact List.mem_cons_self _ _
        · exact List.mem_cons_of_mem _ (h2 x hx')

theorem removeFirstById_length {cid : String} :
    ∀ {hand : List Card} {c : Card} {rest : List Card},
      removeFirstById cid hand = some (c, rest) →
      rest.length + 1 = hand.length := by
  intro hand
  induction hand with
  | nil => intro c rest h; simp [removeFirstById] at h
  | cons b t ih =>
    intro c rest h
    by_cases hb : b.id = cid
    · rw [removeFirstById, if_pos hb] at h
      have heq := Option.some.inj h
      have hr : t = rest := congrArg Prod.snd heq
      subst hr
      simp
    · rw [removeFirstById, if_neg hb] at h
      cases hrec : removeFirstById cid t with
      | none => rw [hrec] at h; simp at h
      | some p =>
        obtain ⟨c', rest'⟩ := p
        rw [hrec] at h
        have heq := Option.some.inj h
        have hr : b :: rest' = rest := congrArg Prod.snd heq
        subst hr
        have := ih hrec
        simp only [List.length_cons]
        omega

theorem spliceMany_mem :
    ∀ (ids : List String) (hand : List Card),
      (∀ x ∈ (spliceMany ids hand).1, x ∈ hand) ∧
      (∀ x ∈ (spliceMany ids hand).2, x ∈ hand) := by
  intro ids
  induction ids with
  | nil => intro hand; simp [spliceMany]
  | cons cid rest ih =>
    intro hand
    unfold spliceMany
    cases hrem : removeFirstById cid hand with
    | none => exact ih hand
    | some p =>
      obtain ⟨c, hand'⟩ := p
      obtain ⟨hc, hsub⟩ := removeFirstById_mem hrem
      obtain ⟨ih1, ih2⟩ := ih hand'
      constructor
      · intro x hx
        exact hsub x (ih1 x hx)
      · intro x hx
        rcases List.mem_cons.mp hx with rfl | hx
        · exact hc
        · exact hsub x (ih2 x hx)

theorem spliceMany_length :
    ∀ (ids : List String) (hand : List Card),
      (spliceMany ids hand).1.length + (spliceMany ids hand).2.length
        = hand.length := by
  intro ids
  induction ids with
  | nil => intro hand; simp [spliceMany]
  | cons cid rest ih =>
    intro hand
    unfold spliceMany
    cases hrem : removeFirstById cid hand with
    | none => exact ih hand
    | some p =>
      obtain ⟨c, hand'⟩ := p
      have hlen := removeFirstById_length hrem
      have := ih hand'
      simp only [List.length_cons]
      omega

theorem sum_alistSet (k : String) (v : List Card) :
    ∀ (l : List (String × List Card)) (v0 : List Card), alistGet k l = some v0 →
      ((alistSet k v l).map (fun p => p.2.length)).sum + v0.length
        = (l.map (fun p => p.2.length)).sum + v.length := by
  intro l
  induction l with
  | nil => simp [alistGet]
  | cons hd t ih =>
    intro v0 h
    by_cases hk : hd.1 = k
    · simp only [alistGet, if_pos hk, Option.some.injEq] at h
      subst h
      simp only [alistSet, if_pos hk, List.map_cons, List.sum_cons]
      omega
    · simp only [alistGet, if_neg hk] at h
      simp only [alistSet, if_neg hk, List.map_cons, List.sum_cons]
      have := ih v0 h
      omega

theorem sum_alistSet_absent (k : String) (v : List Card) :
    ∀ (l : List (String × List Card)), alistGet k l = none →
      ((alistSet k v l).map (fun p => p.2.length)).sum
        = (l.map (fun p => p.2.length)).sum + v.length := by
  intro l
  induction l with
  | nil => simp [alistSet]
  | cons hd t ih =>
    intro h
    by_cases hk : hd.1 = k
    · simp [alistGet, if_pos hk] at h
    · simp only [alistGet, if_neg hk] at h
      simp only [alistSet, if_neg hk, List.map_cons, List.sum_cons]
      have := ih h
      omega

theorem sum_alistEnsure_nil (k : String) (l : List (String × List Card)) :
    ((alistEnsure k [] l).map (fun p => p.2.length)).sum
      = (l.map (fun p => p.2.length)).sum := by
  unfold alistEnsure
  split
  · rfl
  · simp

end Eighty


namespace Eighty

/-- Cards appearing in real decks: a rank-2 card always carries a real
(non-null, non-empty) suit string. -/
def GoodCard (c : Card) : Prop := c.rank = 2 → c.suit ≠ none ∧ c.suit ≠ some ""

instance : DecidablePred GoodCard := fun c => by
  unfold GoodCard
  infer_instance

/-- The pairing invariant on the trump fields, together with the fact
that a set trump suit is a nonempty string (so it is JS-truthy). -/
def TrumpPair (r : Room) : Prop :=
  (r.trumpSuit = none ↔ r.startingPlayer = none) ∧
  ∀ s, r.trumpSuit = some s → s ≠ ""

/-- The inductive invariant: trump fields paired and every card in the
room drawn from a real deck. -/
def Inv (r : Room) : Prop :=
  TrumpPair r ∧ ∀ c ∈ roomCards r, GoodCard c

theorem baseDeck_good : ∀ c ∈ baseDeck, GoodCard c := by decide

theorem buildTwoDecks_good (oracle : Nat → Nat) :
    ∀ c ∈ buildTwoDecks oracle, GoodCard c := fun c hc =>
  baseDeck_good c ((buildTwoDecks_perm oracle).mem_iff.mp hc)

theorem mem_roomCards_deck {r : Room} {x : Card} (h : x ∈ r.deck) :
    x ∈ roomCards r := by
  simp [roomCards]
  exact Or.inl h

theorem mem_roomCards_bottom {r : Room} {x : Card} (h : x ∈ r.bottomEight) :
    x ∈ roomCards r := by
  simp [roomCards]
  tauto

theorem mem_roomCards_hands {r : Room} {x : Card} {sid : String} {hand : List Card}
    (hget : alistGet sid r.hands = some hand) (h : x ∈ hand) :
    x ∈ roomCards r := by
  simp only [roomCards, List.mem_append]
  exact Or.inl (Or.inr (List.mem_flatMap.mpr ⟨(sid, hand), alistGet_mem hget, h⟩))

theorem inv_of_sub (r r' : Room)
    (hts : (r'.trumpSuit = r.trumpSuit ∧ r'.startingPlayer = r.startingPlayer) ∨
           (r'.trumpSuit = none ∧ r'.startingPlayer = none))
    (hsub : ∀ c ∈ roomCards r', c ∈ roomCards r) :
    Inv r → Inv r' := by
  rintro ⟨⟨hiff, hne⟩, hgood⟩
  refine ⟨?_, fun c hc => hgood c (hsub c hc)⟩
  rcases hts with ⟨h1, h2⟩ | ⟨h1, h2⟩
  · exact ⟨by rw [h1, h2]; exact hiff, by rw [h1]; exact hne⟩
  · exact ⟨by simp [h1, h2], by simp [h1]⟩


theorem ensureSeatEntry_fields (r : Room) (st : Seat) :
    (ensureSeatEntry r st).trumpSuit = r.trumpSuit ∧
    (ensureSeatEntry r st).startingPlayer = r.startingPlayer ∧
    roomCards (ensureSeatEntry r st) = roomCards r := by
  unfold ensureSeatEntry
  cases r.seats.get st with
  | none => exact ⟨rfl, rfl, rfl⟩
  | some sid =>
    exact ⟨rfl, rfl, by simp [roomCards, flatMap_alistEnsure_nil]⟩

theorem ensure_foldl_fields :
    ∀ (l : List Seat) (r : Room),
      (l.foldl ensureSeatEntry r).trumpSuit = r.trumpSuit ∧
      (l.foldl ensureSeatEntry r).startingPlayer = r.startingPlayer ∧
      roomCards (l.foldl ensureSeatEntry r) = roomCards r := by
  intro l
  induction l with
  | nil => intro r; exact ⟨rfl, rfl, rfl⟩
  | cons st rest ih =>
    intro r
    obtain ⟨h1, h2, h3⟩ := ih (ensureSeatEntry r st)
    obtain ⟨g1, g2, g3⟩ := ensureSeatEntry_fields r st
    exact ⟨h1.trans g1, h2.trans g2, by rw [List.foldl_cons, h3, g3]⟩

theorem inv_ensureGameStartIfReady (r : Room) (h : Inv r) :
    Inv (ensureGameStartIfReady r) := by
  unfold ensureGameStartIfReady
  split
  · obtain ⟨h1, h2, h3⟩ := ensure_foldl_fields seatList
      { r with
        started := true, phase := .drawing, currentTurn := some Seat.N,
        bottomEight := r.deck.take 8, deck := r.deck.drop 8,
        trumpSuit := none, startingPlayer := none, lastAction := none }
    refine inv_of_sub r _ (Or.inr ⟨h1, h2⟩) ?_ h
    intro c hc
    rw [h3] at hc
    simp only [roomCards, List.mem_append] at hc ⊢
    rcases hc with ((((hc | hc) | hc) | hc) | hc)
    · exact Or.inl (Or.inl (Or.inl (Or.inl (List.mem_of_mem_drop hc))))
    · exact Or.inl (Or.inl (Or.inl (Or.inl (List.mem_of_mem_take hc))))
    · exact Or.inl (Or.inl (Or.inr hc))
    · exact Or.inl (Or.inr hc)
    · exact Or.inr hc
  · exact h


theorem inv_joinRoomH (r : Room) (sid : String) (h : Inv r) :
    Inv (joinRoomH r sid) := by
  refine inv_of_sub r _ (Or.inl ⟨rfl, rfl⟩) ?_ h
  intro c hc
  simpa [roomCards, joinRoomH, flatMap_alistEnsure_nil] using hc

theorem inv_clearTrickH (r : Room) (h : Inv r) : Inv (clearTrickH r) := by
  refine inv_of_sub r _ (Or.inl ⟨rfl, rfl⟩) ?_ h
  intro c hc
  simp only [clearTrickH, roomCards, List.mem_append] at hc ⊢
  rcases hc with ((((hc | hc) | (hc | hc)) | hc) | hc)
  · exact Or.inl (Or.inl (Or.inl (Or.inl hc)))
  · exact Or.inl (Or.inl (Or.inl (Or.inr hc)))
  · exact Or.inl (Or.inl (Or.inr hc))
  · exact Or.inr hc
  · exact Or.inl (Or.inr hc)
  · simp at hc

theorem inv_disconnectH (r : Room) (sid : String) (h : Inv r) :
    Inv (disconnectH r sid) := by
  simp only [disconnectH]
  split
  · refine inv_of_sub r _ (Or.inl ⟨rfl, rfl⟩) ?_ h
    intro c hc
    simp only [roomCards, List.mem_append] at hc ⊢
    rcases hc with ((((hc | hc) | hc) | hc) | hc)
    · exact Or.inl (Or.inl (Or.inl (Or.inl hc)))
    · exact Or.inl (Or.inl (Or.inl (Or.inr hc)))
    · exact Or.inl (Or.inl (Or.inr hc))
    · exact Or.inl (Or.inr (mem_flatMap_alistErase hc))
    · exact Or.inr (mem_flatMap_alistErase hc)
  · exact inv_of_sub r _ (Or.inl ⟨rfl, rfl⟩) (fun _ hc => hc) h



theorem inv_sitBody (r : Room) (sid : String) (seat : Seat) (name : String)
    (h : Inv r) : Inv (sitBody r sid seat name).1 := by
  unfold sitBody
  split
  · exact inv_ensureGameStartIfReady _
      (inv_of_sub r _ (Or.inl ⟨rfl, rfl⟩) (fun _ hc => hc) h)
  · exact inv_ensureGameStartIfReady _
      (inv_of_sub r _ (Or.inl ⟨rfl, rfl⟩) (fun _ hc => hc) h)

theorem inv_sitH (r : Room) (sid : String) (seat : Seat) (name : String)
    (h : Inv r) : Inv (sitH r sid seat name).1 := by
  unfold sitH
  split
  · split
    · exact h
    · exact inv_sitBody r sid seat name h
  · exact inv_sitBody r sid seat name h

theorem inv_drawOneForSeat (r : Room) (seat : Seat) (h : Inv r) :
    Inv (drawOneForSeat r seat).1 := by
  unfold drawOneForSeat
  split
  · exact h
  next sid hseat =>
    split
    · exact h
    next hand hget =>
      split
      · exact h
      · split
        · exact h
        · split
          · exact h
          next card hlast =>
            have hcard : card ∈ r.deck := by
              obtain ⟨hne, heq⟩ :=
                List.mem_getLast?_eq_getLast (Option.mem_def.mpr hlast)
              rw [heq]
              exact List.getLast_mem hne
            have hsub : ∀ c,
                c ∈ r.deck.dropLast
                  ∨ c ∈ r.bottomEight
                  ∨ c ∈ r.discards
                  ∨ c ∈ (alistSet sid (hand ++ [card]) r.hands).flatMap (fun p => p.2)
                  ∨ c ∈ r.table.flatMap (fun p => p.2) →
                c ∈ roomCards r := by
              intro c hc
              simp only [roomCards, List.mem_append]
              rcases hc with hc | hc | hc | hc | hc
              · exact Or.inl (Or.inl (Or.inl (Or.inl (List.dropLast_subset _ hc))))
              · exact Or.inl (Or.inl (Or.inl (Or.inr hc)))
              · exact Or.inl (Or.inl (Or.inr hc))
              · rcases mem_flatMap_alistSet hc with hc | hc
                · rcases List.mem_append.mp hc with hc | hc
                  · exact Or.inl (Or.inr (List.mem_flatMap.mpr
                      ⟨(sid, hand), alistGet_mem hget, hc⟩))
                  · simp only [List.mem_singleton] at hc
                    subst hc
                    exact Or.inl (Or.inl (Or.inl (Or.inl hcard)))
                · exact Or.inl (Or.inr hc)
              · exact Or.inr hc
            split
            next htr =>
              obtain ⟨hrank, hfalsy⟩ := htr
              have hgood := h.2 card (mem_roomCards_deck hcard)
              obtain ⟨hs1, hs2⟩ := hgood hrank
              cases hsuit : card.suit with
              | none => exact absurd hsuit hs1
              | some s =>
                refine ⟨⟨?_, ?_⟩, ?_⟩
                · simp [hsuit]
                · intro s' hs'
                  simp only [hsuit, Option.some.injEq] at hs'
                  subst hs'
                  intro hemp
                  exact hs2 (by rw [hsuit, hemp])
                · intro c hc
                  refine h.2 c (hsub c ?_)
                  simpa [roomCards, List.mem_append] using hc
            next =>
              refine ⟨⟨h.1.1, h.1.2⟩, ?_⟩
              intro c hc
              refine h.2 c (hsub c ?_)
              simpa [roomCards, List.mem_append] using hc


theorem inv_finishDrawingPhase (r : Room) (h : Inv r) :
    Inv (finishDrawingPhase r) :=
  inv_of_sub r _ (Or.inl ⟨rfl, rfl⟩) (fun _ hc => hc) h

theorem inv_drawCardH (r : Room) (sid : String) (h : Inv r) :
    Inv (drawCardH r sid).1 := by
  unfold drawCardH
  split
  · exact h
  · split
    · exact h
    next seat hseat =>
      split
      · exact h
      · split
        · exact inv_finishDrawingPhase r h
        · have hdraw := inv_drawOneForSeat r seat h
          split
          next r1 e heq =>
            rw [heq] at hdraw
            exact hdraw
          next r1 heq =>
            rw [heq] at hdraw
            split
            · exact inv_finishDrawingPhase _
                (inv_of_sub r1 _ (Or.inl ⟨rfl, rfl⟩) (fun _ hc => hc) hdraw)
            · exact inv_of_sub r1 _ (Or.inl ⟨rfl, rfl⟩) (fun _ hc => hc) hdraw

theorem inv_autoDealLoop :
    ∀ (fuel : Nat) (r : Room) (seat : Seat), Inv r →
      Inv (autoDealLoop fuel r seat).1 := by
  intro fuel
  induction fuel with
  | zero => intro r seat h; exact h
  | succ n ih =>
    intro r seat h
    unfold autoDealLoop
    split
    · exact h
    · split
      · exact h
      · split
        · exact h
        · split
          · exact ih _ _ (inv_drawOneForSeat r seat h)
          · exact ih _ _ h

theorem inv_autoDealH (r : Room) (sid : String) (h : Inv r) :
    Inv (autoDealH r sid).1 := by
  unfold autoDealH
  split
  · exact h
  · split
    · exact h
    · have hloop := inv_autoDealLoop 2000 r (r.currentTurn.getD .N) h
      split
      next r1 b heq =>
        rw [heq] at hloop
        exact hloop
      next r1 seat heq =>
        rw [heq] at hloop
        exact inv_finishDrawingPhase _
          (inv_of_sub r1 _ (Or.inl ⟨rfl, rfl⟩) (fun _ hc => hc) hloop)

theorem inv_undoDrawH (r : Room) (sid : String) (h : Inv r) :
    Inv (undoDrawH r sid).1 := by
  unfold undoDrawH
  split
  · exact h
  next last =>
    split
    · exact h
    · split
      · exact h
      · split
        · exact h
        next hand hget =>
          split
          · exact h
          next card hand' hrem =>
            obtain ⟨hcmem, hsubrest⟩ := removeFirstById_mem hrem
            have hsub : ∀ c,
                ((((c ∈ r.deck ∨ c ∈ [card]) ∨ c ∈ r.bottomEight) ∨ c ∈ r.discards)
                    ∨ c ∈ (alistSet sid hand' r.hands).flatMap (fun p => p.2))
                  ∨ c ∈ r.table.flatMap (fun p => p.2) →
                c ∈ roomCards r := by
              intro c hc
              simp only [roomCards, List.mem_append]
              rcases hc with ((((hc | hc) | hc) | hc) | hc) | hc
              · exact Or.inl (Or.inl (Or.inl (Or.inl hc)))
              · simp only [List.mem_singleton] at hc
                subst hc
                exact Or.inl (Or.inr (List.mem_flatMap.mpr
                  ⟨(sid, hand), alistGet_mem hget, hcmem⟩))
              · exact Or.inl (Or.inl (Or.inl (Or.inr hc)))
              · exact Or.inl (Or.inl (Or.inr hc))
              · rcases mem_flatMap_alistSet hc with hc | hc
                · exact Or.inl (Or.inr (List.mem_flatMap.mpr
                    ⟨(sid, hand), alistGet_mem hget, hsubrest c hc⟩))
                · exact Or.inl (Or.inr hc)
              · exact Or.inr hc
            split
            · refine ⟨⟨by simp, by simp⟩, ?_⟩
              intro c hc
              refine h.2 c (hsub c ?_)
              simp only [roomCards, List.mem_append] at hc
              exact hc
            · refine ⟨⟨h.1.1, h.1.2⟩, ?_⟩
              intro c hc
              refine h.2 c (hsub c ?_)
              simp only [roomCards, List.mem_append] at hc
              exact hc

theorem inv_startBottomEightH (r : Room) (sid : String) (h : Inv r) :
    Inv (startBottomEightH r sid).1 := by
  unfold startBottomEightH
  split
  · exact h
  · split
    · exact h
    · split
      · exact h
      · split
        · exact h
        next hand hget =>
          refine ⟨⟨h.1.1, h.1.2⟩, ?_⟩
          intro c hc
          refine h.2 c ?_
          simp only [roomCards, List.mem_append] at hc ⊢
          rcases hc with ((((hc | hc) | hc) | hc) | hc)
          · exact Or.inl (Or.inl (Or.inl (Or.inl hc)))
          · simp at hc
          · exact Or.inl (Or.inl (Or.inr hc))
          · rcases mem_flatMap_alistSet hc with hc | hc
            · rcases List.mem_append.mp hc with hc | hc
              · exact Or.inl (Or.inr (List.mem_flatMap.mpr
                  ⟨(sid, hand), alistGet_mem hget, hc⟩))
              · exact Or.inl (Or.inl (Or.inl (Or.inr hc)))
            · exact Or.inl (Or.inr hc)
          · exact Or.inr hc

theorem inv_discardBottomEightH (r : Room) (sid : String) (ids : List String)
    (h : Inv r) : Inv (discardBottomEightH r sid ids).1 := by
  unfold discardBottomEightH
  split
  · exact h
  · split
    · exact h
    · split
      · exact h
      · split
        · exact h
        next hand hget =>
          have hsplice := spliceMany_mem ids hand
          have hsub1 : ∀ c ∈ (alistSet sid (spliceMany ids hand).1 r.hands).flatMap
              (fun p => p.2), c ∈ r.hands.flatMap (fun p => p.2) := by
            intro c hc
            rcases mem_flatMap_alistSet hc with hc | hc
            · exact List.mem_flatMap.mpr
                ⟨(sid, hand), alistGet_mem hget, hsplice.1 c hc⟩
            · exact hc
          split
          · refine ⟨⟨h.1.1, h.1.2⟩, ?_⟩
            intro c hc
            refine h.2 c ?_
            simp only [roomCards, List.mem_append] at hc ⊢
            rcases hc with ((((hc | hc) | hc) | hc) | hc)
            · exact Or.inl (Or.inl (Or.inl (Or.inl hc)))
            · exact Or.inl (Or.inl (Or.inl (Or.inr hc)))
            · exact Or.inl (Or.inl (Or.inr hc))
            · exact Or.inl (Or.inr (hsub1 c hc))
            · exact Or.inr hc
          · refine ⟨⟨h.1.1, h.1.2⟩, ?_⟩
            intro c hc
            refine h.2 c ?_
            simp only [roomCards, List.mem_append] at hc ⊢
            rcases hc with ((((hc | hc) | hc) | hc) | hc)
            · exact Or.inl (Or.inl (Or.inl (Or.inl hc)))
            · exact Or.inl (Or.inr (List.mem_flatMap.mpr
                ⟨(sid, hand), alistGet_mem hget, hsplice.2 c hc⟩))
            · exact Or.inl (Or.inl (Or.inr hc))
            · exact Or.inl (Or.inr (hsub1 c hc))
            · exact Or.inr hc

theorem spliceMany_nil (ids : List String) : spliceMany ids [] = ([], []) := by
  induction ids with
  | nil => rfl
  | cons cid rest ih => simp [spliceMany, removeFirstById, ih]

theorem inv_playCardsH (r : Room) (sid : String) (ids : List String)
    (h : Inv r) : Inv (playCardsH r sid ids).1 := by
  unfold playCardsH
  split
  · exact h
  · split
    · exact h
    · split
      · exact h
      · split
        next hand hget =>
          have hsplice := spliceMany_mem ids hand
          refine ⟨⟨h.1.1, h.1.2⟩, ?_⟩
          intro c hc
          refine h.2 c ?_
          simp only [roomCards, List.mem_append] at hc ⊢
          rcases hc with ((((hc | hc) | hc) | hc) | hc)
          · exact Or.inl (Or.inl (Or.inl (Or.inl hc)))
          · exact Or.inl (Or.inl (Or.inl (Or.inr hc)))
          · exact Or.inl (Or.inl (Or.inr hc))
          · rcases mem_flatMap_alistSet hc with hc | hc
            · exact Or.inl (Or.inr (List.mem_flatMap.mpr
                ⟨(sid, hand), alistGet_mem hget, hsplice.1 c hc⟩))
            · exact Or.inl (Or.inr hc)
          · rcases mem_flatMap_alistSet hc with hc | hc
            · exact Or.inl (Or.inr (List.mem_flatMap.mpr
                ⟨(sid, hand), alistGet_mem hget, hsplice.2 c hc⟩))
            · exact Or.inr hc
        next hget =>
          refine ⟨⟨h.1.1, h.1.2⟩, ?_⟩
          intro c hc
          refine h.2 c ?_
          simp only [roomCards, List.mem_append] at hc ⊢
          rcases hc with ((((hc | hc) | hc) | hc) | hc)
          · exact Or.inl (Or.inl (Or.inl (Or.inl hc)))
          · exact Or.inl (Or.inl (Or.inl (Or.inr hc)))
          · exact Or.inl (Or.inl (Or.inr hc))
          · exact Or.inl (Or.inr hc)
          · rcases mem_flatMap_alistSet hc with hc | hc
            · rw [spliceMany_nil] at hc
              simp at hc
            · exact Or.inr hc


/-- Equality of every room field except `hands` and `table`. -/
structure FrameEq (a b : Room) : Prop where
  code : a.code = b.code
  seats : a.seats = b.seats
  names : a.playerNames = b.playerNames
  discards : a.discards = b.discards
  deck : a.deck = b.deck
  bottom : a.bottomEight = b.bottomEight
  trump : a.trumpSuit = b.trumpSuit
  sp : a.startingPlayer = b.startingPlayer
  turn : a.currentTurn = b.currentTurn
  phase : a.phase = b.phase
  started : a.started = b.started
  score : a.attackersScore = b.attackersScore
  last : a.lastAction = b.lastAction

theorem frameEq_refl (a : Room) : FrameEq a a :=
  ⟨rfl, rfl, rfl, rfl, rfl, rfl, rfl, rfl, rfl, rfl, rfl, rfl, rfl⟩

theorem frameEq_trans {a b c : Room} (h1 : FrameEq a b) (h2 : FrameEq b c) :
    FrameEq a c :=
  ⟨h1.code.trans h2.code, h1.seats.trans h2.seats, h1.names.trans h2.names,
   h1.discards.trans h2.discards, h1.deck.trans h2.deck,
   h1.bottom.trans h2.bottom, h1.trump.trans h2.trump, h1.sp.trans h2.sp,
   h1.turn.trans h2.turn, h1.phase.trans h2.phase,
   h1.started.trans h2.started, h1.score.trans h2.score,
   h1.last.trans h2.last⟩

theorem clearSeatEntry_frame (r : Room) (st : Seat) :
    FrameEq (clearSeatEntry r st) r := by
  unfold clearSeatEntry
  cases r.seats.get st with
  | none => exact frameEq_refl r
  | some psid => exact ⟨rfl, rfl, rfl, rfl, rfl, rfl, rfl, rfl, rfl, rfl, rfl, rfl, rfl⟩

theorem clear_foldl_frame (l : List Seat) :
    ∀ r : Room, FrameEq (l.foldl clearSeatEntry r) r := by
  induction l with
  | nil => intro r; exact frameEq_refl r
  | cons st rest ih =>
    intro r
    exact frameEq_trans (ih (clearSeatEntry r st)) (clearSeatEntry_frame r st)

theorem clearSeatEntry_handsSub (r : Room) (st : Seat) :
    (∀ c ∈ ((clearSeatEntry r st).hands).flatMap (fun p => p.2),
      c ∈ r.hands.flatMap (fun p => p.2)) ∧
    (∀ c ∈ ((clearSeatEntry r st).table).flatMap (fun p => p.2),
      c ∈ r.table.flatMap (fun p => p.2)) := by
  unfold clearSeatEntry
  cases r.seats.get st with
  | none => exact ⟨fun _ hc => hc, fun _ hc => hc⟩
  | some psid =>
    constructor
    · intro c hc
      rcases mem_flatMap_alistSet hc with hc | hc
      · simp at hc
      · exact hc
    · intro c hc
      rcases mem_flatMap_alistSet hc with hc | hc
      · simp at hc
      · exact hc

theorem clear_foldl_handsSub (l : List Seat) :
    ∀ r : Room,
      (∀ c ∈ ((l.foldl clearSeatEntry r).hands).flatMap (fun p => p.2),
        c ∈ r.hands.flatMap (fun p => p.2)) ∧
      (∀ c ∈ ((l.foldl clearSeatEntry r).table).flatMap (fun p => p.2),
        c ∈ r.table.flatMap (fun p => p.2)) := by
  induction l with
  | nil => intro r; exact ⟨fun _ hc => hc, fun _ hc => hc⟩
  | cons st rest ih =>
    intro r
    obtain ⟨ih1, ih2⟩ := ih (clearSeatEntry r st)
    obtain ⟨g1, g2⟩ := clearSeatEntry_handsSub r st
    exact ⟨fun c hc => g1 c (ih1 c hc), fun c hc => g2 c (ih2 c hc)⟩

theorem inv_reshuffleRoundH (r : Room) (sid : String) (oracle : Nat → Nat)
    (h : Inv r) : Inv (reshuffleRoundH r sid oracle).1 := by
  unfold reshuffleRoundH
  split
  · exact h
  · split
    · exact h
    · split
      · exact h
      · have hgoodD := buildTwoDecks_good oracle
        generalize buildTwoDecks oracle = D at hgoodD ⊢
        have hframe := clear_foldl_frame seatList
          { r with
            deck := D.drop 8
            bottomEight := D.take 8
            discards := []
            table := []
            lastAction := none
            trumpSuit := none
            startingPlayer := none
            phase := Phase.drawing
            currentTurn := some Seat.N }
        have hsubs := clear_foldl_handsSub seatList
          { r with
            deck := D.drop 8
            bottomEight := D.take 8
            discards := []
            table := []
            lastAction := none
            trumpSuit := none
            startingPlayer := none
            phase := Phase.drawing
            currentTurn := some Seat.N }
        constructor
        · constructor
          · rw [hframe.trump, hframe.sp]
            exact ⟨fun _ => rfl, fun _ => rfl⟩
          · intro s hs
            rw [hframe.trump] at hs
            exact Option.noConfusion hs
        · intro c hc
          simp only [roomCards, List.mem_append] at hc
          rcases hc with ((((hc | hc) | hc) | hc) | hc)
          · rw [hframe.deck] at hc
            exact hgoodD c (List.drop_subset 8 D hc)
          · rw [hframe.bottom] at hc
            exact hgoodD c (List.take_subset 8 D hc)
          · rw [hframe.discards] at hc
            exact absurd hc (List.not_mem_nil c)
          · exact h.2 c (by
              simp only [roomCards, List.mem_append]
              exact Or.inl (Or.inr (hsubs.1 c hc)))
          · exact absurd (hsubs.2 c hc) (List.not_mem_nil c)


theorem inv_step {a b : Room} (hstep : Step a b) (h : Inv a) : Inv b := by
  cases hstep with
  | join sid => exact inv_joinRoomH a sid h
  | sit sid seat name => exact inv_sitH a sid seat name h
  | draw sid => exact inv_drawCardH a sid h
  | autoDeal sid => exact inv_autoDealH a sid h
  | undo sid => exact inv_undoDrawH a sid h
  | startB8 sid => exact inv_startBottomEightH a sid h
  | discardB8 sid ids => exact inv_discardBottomEightH a sid ids h
  | reshuffle sid oracle => exact inv_reshuffleRoundH a sid oracle h
  | play sid ids => exact inv_playCardsH a sid ids h
  | clear => exact inv_clearTrickH a h
  | disconnect sid => exact inv_disconnectH a sid h

theorem inv_initRoom (code creator : String) (oracle : Nat → Nat) :
    Inv (initRoom code creator (buildTwoDecks oracle)) := by
  have hgoodD := buildTwoDecks_good oracle
  generalize buildTwoDecks oracle = D at hgoodD ⊢
  constructor
  · exact ⟨⟨fun _ => rfl, fun _ => rfl⟩, fun s hs => Option.noConfusion hs⟩
  · intro c hc
    simp only [initRoom, roomCards, List.mem_append] at hc
    rcases hc with ((((hc | hc) | hc) | hc) | hc)
    · exact hgoodD c hc
    · exact absurd hc (List.not_mem_nil c)
    · exact absurd hc (List.not_mem_nil c)
    · simp at hc
    · simp at hc

theorem inv_reachable {r : Room} (h : Reachable r) : Inv r := by
  obtain ⟨code, creator, oracle, hsteps⟩ := h
  induction hsteps with
  | refl => exact inv_initRoom code creator oracle
  | tail hab hbc ih => exact inv_step hbc ih


/-- C5: in every reachable room `trumpSuit` and `startingPlayer` are
both unset or both set; a rank-2 draw while the trump is unset fixes
`trumpSuit` to the drawn suit and `startingPlayer` to the drawing seat,
and any draw made while the trump is already set leaves both fields
unchanged. -/
theorem trump_pairing_spec :
    (∀ r : Room, Reachable r → (r.trumpSuit = none ↔ r.startingPlayer = none)) ∧
    (∀ (r : Room) (seat : Seat) (sid : String) (hand : List Card) (card : Card),
      r.seats.get seat = some sid →
      alistGet sid r.hands = some hand →
      hand.length < 25 →
      r.deck.getLast? = some card →
      r.trumpSuit = none →
      card.rank = 2 →
      (drawOneForSeat r seat).1.trumpSuit = card.suit ∧
      (drawOneForSeat r seat).1.startingPlayer = some seat) ∧
    (∀ (r : Room) (seat : Seat) (s : String),
      r.trumpSuit = some s → s ≠ "" →
      (drawOneForSeat r seat).1.trumpSuit = some s ∧
      (drawOneForSeat r seat).1.startingPlayer = r.startingPlayer) := by
  refine ⟨fun r hr => (inv_reachable hr).1.1, ?_, ?_⟩
  · intro r seat sid hand card hseat hget h25 hlast htr hrank
    unfold drawOneForSeat
    split
    next h1 => rw [hseat] at h1; exact Option.noConfusion h1
    next sid' hseat' =>
      rw [hseat] at hseat'
      obtain rfl : sid = sid' := Option.some.inj hseat'
      split
      next h2 => rw [hget] at h2; exact Option.noConfusion h2
      next hand' hget' =>
        rw [hget] at hget'
        obtain rfl : hand = hand' := Option.some.inj hget'
        split
        next h3 => omega
        next h3 =>
          split
          next h4 =>
            rw [List.length_eq_zero] at h4
            rw [h4] at hlast
            exact Option.noConfusion hlast
          next h4 =>
            split
            next h5 => rw [hlast] at h5; exact Option.noConfusion h5
            next card' hlast' =>
              rw [hlast] at hlast'
              obtain rfl : card = card' := Option.some.inj hlast'
              split
              next => exact ⟨rfl, rfl⟩
              next h6 =>
                exfalso
                exact h6 ⟨hrank, by rw [htr]; rfl⟩
  · intro r seat s hts hne
    unfold drawOneForSeat
    split
    · exact ⟨hts, rfl⟩
    next sid' hseat' =>
      split
      · exact ⟨hts, rfl⟩
      next hand' hget' =>
        split
        · exact ⟨hts, rfl⟩
        · split
          · exact ⟨hts, rfl⟩
          · split
            · exact ⟨hts, rfl⟩
            next card' hlast' =>
              split
              next h6 =>
                exfalso
                have hf := h6.2
                rw [hts] at hf
                simp only [strFalsy, beq_iff_eq] at hf
                exact hne hf
              next => exact ⟨hts, rfl⟩

/-- A concrete drawing-phase room whose next drawn card is the 2 of
Hearts while the trump is unset. -/
def trumpW2 : Room :=
  ⟨"W", ⟨some "p1", none, none, none⟩, [], [("p1", [])], [("p1", [])], [],
    [⟨"d1", some "H", 2, none⟩], [], none, none, some .N, .drawing, true, 0, none⟩

/-- A concrete room whose trump is already Hearts and whose next drawn
card has rank 3. -/
def trumpW3 : Room :=
  ⟨"W", ⟨some "p1", none, none, none⟩, [], [("p1", [])], [("p1", [])], [],
    [⟨"d2", some "D", 3, none⟩], [], some "H", some .N, some .N, .drawing, true, 0,
    none⟩

/-- C5 witness: the pairing fact at a freshly created room, the
trump-setting draw and the trump-preserving draw at concrete rooms. -/
theorem trump_pairing_spec_witness :
    ((initRoom "R" "h" (buildTwoDecks (fun i => i))).trumpSuit = none ↔
     (initRoom "R" "h" (buildTwoDecks (fun i => i))).startingPlayer = none) ∧
    ((drawOneForSeat trumpW2 .N).1.trumpSuit = some "H" ∧
     (drawOneForSeat trumpW2 .N).1.startingPlayer = some .N) ∧
    ((drawOneForSeat trumpW3 .N).1.trumpSuit = some "H" ∧
     (drawOneForSeat trumpW3 .N).1.startingPlayer = trumpW3.startingPlayer) := by
  refine ⟨trump_pairing_spec.1 _ ⟨"R", "h", fun i => i, Relation.ReflTransGen.refl⟩,
    ?_, ?_⟩
  · exact trump_pairing_spec.2.1 trumpW2 .N "p1" [] ⟨"d1", some "H", 2, none⟩
      rfl (by decide) (by decide) rfl rfl rfl
  · exact trump_pairing_spec.2.2 trumpW3 .N "H" rfl (by decide)

end Eighty

namespace Eighty

theorem removeFirstById_eq_none {cid : String} :
    ∀ {hand : List Card}, (∀ c ∈ hand, c.id ≠ cid) →
      removeFirstById cid hand = none := by
  intro hand
  induction hand with
  | nil => intro _; rfl
  | cons b t ih =>
    intro hmiss
    rw [removeFirstById, if_neg (hmiss b (List.mem_cons_self b t))]
    rw [ih (fun c hc => hmiss c (List.mem_cons_of_mem b hc))]
    rfl

/-- C10: an `undo_draw` by the seat of the recorded last action whose
recorded card identity is no longer in that hand is a silent no-op: the
handler emits no error and leaves every field of the room unchanged, so
`lastAction` stays set. -/
theorem undo_missing_card_silent (r : Room) (sid : String) (la : LastAction)
    (hand : List Card)
    (hphase : r.phase = Phase.drawing)
    (hla : r.lastAction = some la)
    (hseat : r.seats.get la.seat = some sid)
    (hget : alistGet sid r.hands = some hand)
    (hmiss : ∀ c ∈ hand, c.id ≠ la.cardId) :
    undoDrawH r sid = (r, none) ∧ r.lastAction = some la := by
  refine ⟨?_, hla⟩
  unfold undoDrawH
  split
  next h1 => rw [hla] at h1; exact Option.noConfusion h1
  next la' hla' =>
    rw [hla] at hla'
    obtain rfl : la = la' := Option.some.inj hla'
    split
    next h2 => exact absurd hphase h2
    next h2 =>
      split
      next h3 => exact absurd hseat (by simpa using h3)
      next h3 =>
        split
        next h4 => rw [hget] at h4; exact Option.noConfusion h4
        next hand' hget' =>
          rw [hget] at hget'
          obtain rfl : hand = hand' := Option.some.inj hget'
          split
          next => rfl
          next card rest hrem =>
            rw [removeFirstById_eq_none hmiss] at hrem
            exact Option.noConfusion hrem

/-- A concrete room whose recorded draw identity is absent from the
drawing seat's hand. -/
def undoW : Room :=
  ⟨"U", ⟨some "p1", none, none, none⟩, [], [("p1", [⟨"k1", some "S", 7, none⟩])],
    [("p1", [])], [], [⟨"k2", some "D", 9, none⟩], [], none, none, some .N,
    .drawing, true, 0, some ⟨.N, "gone"⟩⟩

/-- C10 witness: the silent no-op at a concrete room. -/
theorem undo_missing_card_silent_witness :
    undoDrawH undoW "p1" = (undoW, none) ∧ undoW.lastAction = some ⟨.N, "gone"⟩ :=
  undo_missing_card_silent undoW "p1" ⟨.N, "gone"⟩ [⟨"k1", some "S", 7, none⟩]
    rfl rfl (by decide) (by decide) (by decide)


/-- JS objects cannot hold two entries with the same key; reachable
association lists satisfy this. -/
def keysNodup (l : List (String × List Card)) : Prop :=
  (l.map Prod.fst).Nodup

instance (l : List (String × List Card)) : Decidable (keysNodup l) := by
  unfold keysNodup
  infer_instance

theorem mem_alistSet_nodup {p : String × List Card} {k : String}
    {v : List Card} :
    ∀ {l : List (String × List Card)}, keysNodup l → p ∈ alistSet k v l →
      p = (k, v) ∨ (p ∈ l ∧ p.1 ≠ k) := by
  intro l
  induction l with
  | nil =>
    intro _ hp
    simp only [alistSet, List.mem_singleton] at hp
    exact Or.inl hp
  | cons hd t ih =>
    obtain ⟨k', v'⟩ := hd
    intro hnd hp
    obtain ⟨hk', hndt⟩ : k' ∉ t.map Prod.fst ∧ keysNodup t := by
      simpa [keysNodup] using hnd
    by_cases h : k' = k
    · subst h
      rw [alistSet, if_pos rfl] at hp
      rcases List.mem_cons.mp hp with rfl | hp
      · exact Or.inl rfl
      · refine Or.inr ⟨List.mem_cons_of_mem _ hp, ?_⟩
        intro hpk
        exact hk' (hpk ▸ List.mem_map_of_mem Prod.fst hp)
    · rw [alistSet, if_neg h] at hp
      rcases List.mem_cons.mp hp with rfl | hp
      · exact Or.inr ⟨List.mem_cons_self _ _, h⟩
      · rcases ih hndt hp with h1 | ⟨h1, h2⟩
        · exact Or.inl h1
        · exact Or.inr ⟨List.mem_cons_of_mem _ h1, h2⟩

theorem keys_alistSet_sub {x k : String} {v : List Card} :
    ∀ {l : List (String × List Card)},
      x ∈ (alistSet k v l).map Prod.fst → x ∈ l.map Prod.fst ∨ x = k := by
  intro l hx
  rw [List.mem_map] at hx
  obtain ⟨p, hp, hpx⟩ := hx
  rcases mem_alistSet_entries hp with rfl | hp'
  · exact Or.inr hpx.symm
  · exact Or.inl (hpx ▸ List.mem_map_of_mem Prod.fst hp')

theorem keysNodup_alistSet {k : String} {v : List Card} :
    ∀ {l : List (String × List Card)}, keysNodup l →
      keysNodup (alistSet k v l) := by
  intro l
  induction l with
  | nil => intro _; simp [alistSet, keysNodup]
  | cons hd t ih =>
    obtain ⟨k', v'⟩ := hd
    intro hnd
    obtain ⟨hk', hndt⟩ : k' ∉ t.map Prod.fst ∧ keysNodup t := by
      simpa [keysNodup] using hnd
    by_cases h : k' = k
    · subst h
      rw [alistSet, if_pos rfl]
      exact List.Nodup.cons hk' hndt
    · rw [alistSet, if_neg h]
      have hrec := ih hndt
      refine List.Nodup.cons ?_ hrec
      intro hmem
      rcases keys_alistSet_sub hmem with h1 | h1
      · exact hk' h1
      · exact h h1

theorem clearSeatEntry_keysNodup (r : Room) (st : Seat)
    (h1 : keysNodup r.hands) (h2 : keysNodup r.table) :
    keysNodup (clearSeatEntry r st).hands ∧
    keysNodup (clearSeatEntry r st).table := by
  unfold clearSeatEntry
  cases r.seats.get st with
  | none => exact ⟨h1, h2⟩
  | some psid => exact ⟨keysNodup_alistSet h1, keysNodup_alistSet h2⟩

theorem clear_foldl_entries (l : List Seat) :
    ∀ (r : Room), keysNodup r.hands → keysNodup r.table →
      (∀ p ∈ (l.foldl clearSeatEntry r).hands,
        p.2 = [] ∨ (p ∈ r.hands ∧ ∀ st ∈ l, r.seats.get st ≠ some p.1)) ∧
      (∀ p ∈ (l.foldl clearSeatEntry r).table,
        p.2 = [] ∨ (p ∈ r.table ∧ ∀ st ∈ l, r.seats.get st ≠ some p.1)) := by
  induction l with
  | nil =>
    intro r _ _
    exact ⟨fun p hp => Or.inr ⟨hp, by simp⟩, fun p hp => Or.inr ⟨hp, by simp⟩⟩
  | cons st rest ih =>
    intro r hnd1 hnd2
    obtain ⟨hnd1', hnd2'⟩ := clearSeatEntry_keysNodup r st hnd1 hnd2
    obtain ⟨ih1, ih2⟩ := ih (clearSeatEntry r st) hnd1' hnd2'
    have hseats : (clearSeatEntry r st).seats = r.seats :=
      (clearSeatEntry_frame r st).seats
    constructor
    · intro p hp
      rcases ih1 p hp with h1 | ⟨h1, h2⟩
      · exact Or.inl h1
      · rw [hseats] at h2
        revert h1
        unfold clearSeatEntry
        cases hst : r.seats.get st with
        | none =>
          intro h1
          refine Or.inr ⟨h1, ?_⟩
          intro st' hst'
          rcases List.mem_cons.mp hst' with rfl | hst'
          · rw [hst]; exact fun hcontra => Option.noConfusion hcontra
          · exact h2 st' hst'
        | some psid =>
          intro h1
          rcases mem_alistSet_nodup hnd1 h1 with rfl | ⟨h1, h3⟩
          · exact Or.inl rfl
          · refine Or.inr ⟨h1, ?_⟩
            intro st' hst'
            rcases List.mem_cons.mp hst' with rfl | hst'
            · rw [hst]
              intro hcontra
              exact h3 (Option.some.inj hcontra).symm
            · exact h2 st' hst'
    · intro p hp
      rcases ih2 p hp with h1 | ⟨h1, h2⟩
      · exact Or.inl h1
      · rw [hseats] at h2
        revert h1
        unfold clearSeatEntry
        cases hst : r.seats.get st with
        | none =>
          intro h1
          refine Or.inr ⟨h1, ?_⟩
          intro st' hst'
          rcases List.mem_cons.mp hst' with rfl | hst'
          · rw [hst]; exact fun hcontra => Option.noConfusion hcontra
          · exact h2 st' hst'
        | some psid =>
          intro h1
          rcases mem_alistSet_nodup hnd2 h1 with rfl | ⟨h1, h3⟩
          · exact Or.inl rfl
          · refine Or.inr ⟨h1, ?_⟩
            intro st' hst'
            rcases List.mem_cons.mp hst' with rfl | hst'
            · rw [hst]
              intro hcontra
              exact h3 (Option.some.inj hcontra).symm
            · exact h2 st' hst'


theorem seatList_complete (st : Seat) : st ∈ seatList := by
  cases st <;> decide

/-- C9: a reshuffle requested by the starting player in the discarding
phase with fewer than 25 hand points succeeds: seats and player names
are untouched, a fresh 108-card deck is split into a 100-card draw pile
and an 8-card bottom pile, hands, table and discards are emptied, the
trump fields and last action are cleared, the phase returns to drawing
and the turn to N; with 25 or more points it fails with the
eligibility error and returns the room unchanged. -/
theorem reshuffle_spec (r : Room) (sid : String) (oracle : Nat → Nat) (sp : Seat)
    (hphase : r.phase = Phase.discarding_bottom_eight)
    (hsp : r.startingPlayer = some sp)
    (hseat : seatOf r sid = some sp)
    (hnd : keysNodup r.hands)
    (hunseated : ∀ p ∈ r.hands, (∀ st : Seat, r.seats.get st ≠ some p.1) → p.2 = []) :
    (pointsOf ((alistGet sid r.hands).getD []) < 25 →
      (reshuffleRoundH r sid oracle).2 = none ∧
      (reshuffleRoundH r sid oracle).1.seats = r.seats ∧
      (reshuffleRoundH r sid oracle).1.playerNames = r.playerNames ∧
      (reshuffleRoundH r sid oracle).1.deck = (buildTwoDecks oracle).drop 8 ∧
      (reshuffleRoundH r sid oracle).1.deck.length = 100 ∧
      (reshuffleRoundH r sid oracle).1.bottomEight = (buildTwoDecks oracle).take 8 ∧
      (reshuffleRoundH r sid oracle).1.bottomEight.length = 8 ∧
      (∀ p ∈ (reshuffleRoundH r sid oracle).1.hands, p.2 = []) ∧
      (∀ p ∈ (reshuffleRoundH r sid oracle).1.table, p.2 = []) ∧
      (reshuffleRoundH r sid oracle).1.discards = [] ∧
      (reshuffleRoundH r sid oracle).1.trumpSuit = none ∧
      (reshuffleRoundH r sid oracle).1.startingPlayer = none ∧
      (reshuffleRoundH r sid oracle).1.lastAction = none ∧
      (reshuffleRoundH r sid oracle).1.phase = Phase.drawing ∧
      (reshuffleRoundH r sid oracle).1.currentTurn = some Seat.N) ∧
    (pointsOf ((alistGet sid r.hands).getD []) ≥ 25 →
      reshuffleRoundH r sid oracle
        = (r, some "Reshuffle only allowed if you have <25 points.")) := by
  have c1 : ¬(r.phase ≠ Phase.discarding_bottom_eight) := fun h => h hphase
  have c2 : ¬(seatOf r sid ≠ r.startingPlayer) := by
    rw [hseat, hsp]
    exact fun h => h rfl
  constructor
  · intro hlt
    have hlen : (buildTwoDecks oracle).length = 108 :=
      (buildTwoDecks_perm oracle).length_eq.trans (by decide)
    have c3 : ¬(pointsOf ((alistGet sid r.hands).getD []) ≥ 25) := by omega
    unfold reshuffleRoundH
    rw [if_neg c1, if_neg c2, if_neg c3]
    generalize hD : buildTwoDecks oracle = D at hlen ⊢
    have hframe := clear_foldl_frame seatList
      { r with
        deck := D.drop 8
        bottomEight := D.take 8
        discards := []
        table := []
        lastAction := none
        trumpSuit := none
        startingPlayer := none
        phase := Phase.drawing
        currentTurn := some Seat.N }
    have hentries := clear_foldl_entries seatList
      { r with
        deck := D.drop 8
        bottomEight := D.take 8
        discards := []
        table := []
        lastAction := none
        trumpSuit := none
        startingPlayer := none
        phase := Phase.drawing
        currentTurn := some Seat.N }
      hnd (by exact List.nodup_nil)
    refine ⟨rfl, ?hseq, ?hnam, ?hdk, ?hdl, ?hbt, ?hbl, ?hha, ?hta, ?hdi,
      ?htr, ?hsp2, ?hla, ?hph, ?htu⟩
    · rw [hframe.seats]
    · rw [hframe.names]
    · rw [hframe.deck]
    · rw [hframe.deck]
      simp only [List.length_drop]
      omega
    · rw [hframe.bottom]
    · rw [hframe.bottom]
      simp only [List.length_take]
      omega
    · intro p hp
      rcases hentries.1 p hp with h | ⟨h, h4⟩
      · exact h
      · exact hunseated p h (fun st => h4 st (seatList_complete st))
    · intro p hp
      rcases hentries.2 p hp with h | ⟨h, _⟩
      · exact h
      · exact absurd h (List.not_mem_nil p)
    · rw [hframe.discards]
    · rw [hframe.trump]
    · rw [hframe.sp]
    · rw [hframe.last]
    · rw [hframe.phase]
    · rw [hframe.turn]
  · intro hge
    unfold reshuffleRoundH
    rw [if_neg c1, if_neg c2, if_pos hge]


instance : Fintype Seat where
  elems := Finset.mk ([Seat.N, Seat.E, Seat.S, Seat.W] : Multiset Seat) (by decide)
  complete := fun st => by cases st <;> decide

/-- A discarding-phase room whose starting player N holds 5 points. -/
def resW : Room :=
  ⟨"Q", ⟨some "p1", some "p2", some "p3", some "p4"⟩,
    [("p1", "Ann"), ("p2", "Bob")],
    [("p1", [⟨"h1", some "S", 5, none⟩]), ("p2", []), ("p3", []), ("p4", [])],
    [("p1", []), ("p2", []), ("p3", []), ("p4", [])], [],
    [⟨"h2", some "D", 4, none⟩], [], some "S", some .N, none,
    .discarding_bottom_eight, true, 0, none⟩

/-- The same room with a 25-point hand for the starting player. -/
def resW25 : Room :=
  ⟨"Q", ⟨some "p1", some "p2", some "p3", some "p4"⟩,
    [("p1", "Ann"), ("p2", "Bob")],
    [("p1", [⟨"h1", some "S", 5, none⟩, ⟨"h3", some "H", 10, none⟩,
             ⟨"h4", some "C", 13, none⟩]), ("p2", []), ("p3", []), ("p4", [])],
    [("p1", []), ("p2", []), ("p3", []), ("p4", [])], [],
    [⟨"h2", some "D", 4, none⟩], [], some "S", some .N, none,
    .discarding_bottom_eight, true, 0, none⟩

/-- C9 witness: a successful reshuffle and a rejected one at concrete
rooms. -/
theorem reshuffle_spec_witness :
    (reshuffleRoundH resW "p1" (fun i => i)).2 = none ∧
    (reshuffleRoundH resW "p1" (fun i => i)).1.bottomEight.length = 8 ∧
    (reshuffleRoundH resW "p1" (fun i => i)).1.phase = Phase.drawing ∧
    reshuffleRoundH resW25 "p1" (fun i => i)
      = (resW25, some "Reshuffle only allowed if you have <25 points.") := by
  have h1 := reshuffle_spec resW "p1" (fun i => i) .N rfl rfl (by decide)
    (by decide) (by decide)
  have h2 := reshuffle_spec resW25 "p1" (fun i => i) .N rfl rfl (by decide)
    (by decide) (by decide)
  obtain ⟨e1, _, _, _, _, _, e7, _, _, _, _, _, _, e14, _⟩ := h1.1 (by decide)
  exact ⟨e1, e7, e14, h2.2 (by decide)⟩

end Eighty

namespace Eighty

/-- A discarding-phase room whose starting player holds six cards. -/
def discW : Room :=
  ⟨"D", ⟨some "p1", some "p2", none, none⟩, [],
    [("p1", [⟨"a1", some "S", 3, none⟩, ⟨"a2", some "S", 4, none⟩,
             ⟨"a3", some "S", 6, none⟩, ⟨"a4", some "H", 7, none⟩,
             ⟨"a5", some "H", 8, none⟩, ⟨"a6", some "H", 9, none⟩]),
     ("p2", [])],
    [("p1", []), ("p2", [])], [], [], [], some "S", some .N, none,
    .discarding_bottom_eight, true, 0, none⟩

/-- Eight requested identifiers of which only three resolve in the hand. -/
def discIds : List String := ["a1", "a2", "a3", "x4", "x5", "x6", "x7", "x8"]

/-- C2: the `discard_bottom_eight` handler splices each matched card out
of the hand before checking that all 8 resolved, so the rejected request
has already removed the matched cards (and they are dropped entirely:
the card total shrinks by 3).  The claim that a failing discard leaves
the room unchanged is right about the intent and wrong about the code. -/
theorem discard_partial_bug :
    (discardBottomEightH discW "p1" discIds).2
      = some "Could not find all 8 selected cards in hand." ∧
    alistGet "p1" (discardBottomEightH discW "p1" discIds).1.hands
      = some [⟨"a4", some "H", 7, none⟩, ⟨"a5", some "H", 8, none⟩,
              ⟨"a6", some "H", 9, none⟩] ∧
    cardTotal discW = 6 ∧
    cardTotal (discardBottomEightH discW "p1" discIds).1 = 3 ∧
    (discardBottomEightH discW "p1" discIds).1 ≠ discW := by
  decide

/-- A drawing-phase room in which seat N drew the trump-fixing 2 of
Hearts earlier and is about to draw an unrelated rank-9 card. -/
def undoBugW : Room :=
  ⟨"B", ⟨some "p1", some "p2", some "p3", some "p4"⟩, [],
    [("p1", [⟨"t1", some "H", 2, none⟩]), ("p2", []), ("p3", []), ("p4", [])],
    [("p1", []), ("p2", []), ("p3", []), ("p4", [])], [],
    [⟨"c8", some "C", 8, none⟩, ⟨"c9", some "D", 9, none⟩], [],
    some "H", some .N, some .N, .drawing, true, 0, none⟩

/-- C3: `undo_draw` resets `trumpSuit`/`startingPlayer` whenever the
undone draw belongs to the starting player, even when that draw did not
set the trump: after N (the starting player) draws a rank-9 card and
undoes it, the trump fields are cleared instead of being restored to
their pre-draw values, contradicting the code comment "If that draw set
the first trump, reset it".  `drawPile`, hand and `currentTurn` are
restored correctly. -/
theorem undo_clears_foreign_trump_bug :
    undoBugW.trumpSuit = some "H" ∧
    (drawCardH undoBugW "p1").2 = none ∧
    (drawCardH undoBugW "p1").1.trumpSuit = some "H" ∧
    (undoDrawH (drawCardH undoBugW "p1").1 "p1").2 = none ∧
    (undoDrawH (drawCardH undoBugW "p1").1 "p1").1.trumpSuit = none ∧
    (undoDrawH (drawCardH undoBugW "p1").1 "p1").1.startingPlayer = none ∧
    (undoDrawH (drawCardH undoBugW "p1").1 "p1").1.deck = undoBugW.deck ∧
    (undoDrawH (drawCardH undoBugW "p1").1 "p1").1.hands = undoBugW.hands ∧
    (undoDrawH (drawCardH undoBugW "p1").1 "p1").1.currentTurn
      = undoBugW.currentTurn := by
  decide


/-- A drawing-phase room with an unclaimed bottom card "b1". -/
def leakA : Room :=
  ⟨"L", ⟨some "v", some "o", none, none⟩, [], [("v", []), ("o", [])],
    [("v", []), ("o", [])], [], [], [⟨"b1", some "S", 3, none⟩], none, none,
    some .N, .drawing, true, 0, none⟩

/-- The same room with the bottom card replaced by identity "b2". -/
def leakB : Room :=
  ⟨"L", ⟨some "v", some "o", none, none⟩, [], [("v", []), ("o", [])],
    [("v", []), ("o", [])], [], [], [⟨"b2", some "S", 3, none⟩], none, none,
    some .N, .drawing, true, 0, none⟩

/-- C4 counterexample: the projector in `src/server/index.js` ships the
full `bottomEight` array, so two rooms that agree everywhere except in
the identity of an unclaimed bottom-pile card (equal counts) produce
different views for the same participant. -/
theorem projector_bottom_leak_cex :
    leakA.code = leakB.code ∧ leakA.seats = leakB.seats ∧
    leakA.playerNames = leakB.playerNames ∧ leakA.hands = leakB.hands ∧
    leakA.table = leakB.table ∧ leakA.discards = leakB.discards ∧
    leakA.deck = leakB.deck ∧ leakA.trumpSuit = leakB.trumpSuit ∧
    leakA.startingPlayer = leakB.startingPlayer ∧
    leakA.currentTurn = leakB.currentTurn ∧ leakA.phase = leakB.phase ∧
    leakA.started = leakB.started ∧
    leakA.attackersScore = leakB.attackersScore ∧
    leakA.lastAction = leakB.lastAction ∧
    leakA.bottomEight.length = leakB.bottomEight.length ∧
    safeRoomStateForIdx "v" leakA ≠ safeRoomStateForIdx "v" leakB := by
  decide

/-- C4 amended: the projector of the complete server version reveals
other hands only through their counts and the bottom pile only through
its count; the `src/server/index.js` projector also hides other hands,
but it ships the bottom pile contents, so its output is only invariant
when the bottom pile itself is unchanged. -/
theorem projector_amended :
    ∀ (v : String) (r1 r2 : Room),
      r1.code = r2.code → r1.seats = r2.seats →
      r1.playerNames = r2.playerNames → r1.currentTurn = r2.currentTurn →
      r1.trumpSuit = r2.trumpSuit → r1.startingPlayer = r2.startingPlayer →
      r1.phase = r2.phase → r1.started = r2.started →
      r1.deck.length = r2.deck.length →
      r1.discards.length = r2.discards.length → r1.table = r2.table →
      r1.attackersScore = r2.attackersScore → r1.lastAction = r2.lastAction →
      alistGet v r1.hands = alistGet v r2.hands →
      r1.hands.map (fun p => (p.1, p.2.length))
        = r2.hands.map (fun p => (p.1, p.2.length)) →
      ((r1.bottomEight.length = r2.bottomEight.length →
          safeRoomStateFor v r1 = safeRoomStateFor v r2) ∧
       (r1.bottomEight = r2.bottomEight →
          safeRoomStateForIdx v r1 = safeRoomStateForIdx v r2)) := by
  intro v r1 r2 hcode hseats hnames hturn htrump hsp hphase hstarted hdeck
    hdisc htable hscore hlast hown hcounts
  have hseatOf : seatOf r1 v = seatOf r2 v := by
    simp only [seatOf, hseats]
  have hhc : r1.hands.map (fun p => (p.1, p.2.length))
      = r2.hands.map (fun p => (p.1, p.2.length)) := hcounts
  constructor
  · intro hbot
    simp only [safeRoomStateFor, SafeState.mk.injEq]
    exact ⟨hcode, hseats, hnames, hturn, htrump, hsp, hbot, hphase, hstarted,
      hdeck, hdisc, htable, by rw [hown], hhc, hscore, hlast,
      by rw [hphase, hsp, hseatOf, hown], by rw [hown]⟩
  · intro hbot
    simp only [safeRoomStateForIdx, SafeStateIdx.mk.injEq]
    exact ⟨hcode, hseats, hnames, hturn, htrump, hsp, hbot, hphase, hstarted,
      hdeck, hdisc, htable, by rw [hown], hhc, hscore, hlast⟩

/-- A variant of `leakA` in which the other participant "o" holds a
different card of the same count. -/
def leakC : Room :=
  ⟨"L", ⟨some "v", some "o", none, none⟩, [], [("v", []), ("o", [⟨"z9", some "C", 12, none⟩])],
    [("v", []), ("o", [])], [], [], [⟨"b1", some "S", 3, none⟩], none, none,
    some .N, .drawing, true, 0, none⟩

/-- The same rooms with "o" holding a different single card. -/
def leakD : Room :=
  ⟨"L", ⟨some "v", some "o", none, none⟩, [], [("v", []), ("o", [⟨"z7", some "D", 5, none⟩])],
    [("v", []), ("o", [])], [], [], [⟨"b2", some "S", 3, none⟩], none, none,
    some .N, .drawing, true, 0, none⟩

/-- `leakD` with the bottom pile of `leakC`. -/
def leakE : Room :=
  ⟨"L", ⟨some "v", some "o", none, none⟩, [], [("v", []), ("o", [⟨"z7", some "D", 5, none⟩])],
    [("v", []), ("o", [])], [], [], [⟨"b1", some "S", 3, none⟩], none, none,
    some .N, .drawing, true, 0, none⟩

/-- C4 witness: the amended statement applied at concrete rooms that
differ in another participant's hand contents and in the bottom-pile
identities. -/
theorem projector_amended_witness :
    safeRoomStateFor "v" leakC = safeRoomStateFor "v" leakD ∧
    safeRoomStateForIdx "v" leakC = safeRoomStateForIdx "v" leakE := by
  constructor
  · exact (projector_amended "v" leakC leakD rfl rfl rfl rfl rfl rfl rfl rfl
      rfl rfl rfl rfl (by decide) (by decide) rfl).1 rfl
  · exact (projector_amended "v" leakC leakE rfl rfl rfl rfl rfl rfl rfl rfl
      rfl rfl rfl rfl (by decide) (by decide) rfl).2 rfl


theorem sum_lengths :
    ∀ l : List (String × List Card),
      (l.flatMap (fun p => p.2)).length = (l.map (fun p => p.2.length)).sum := by
  intro l
  induction l with
  | nil => rfl
  | cons hd t ih => simp [List.flatMap_cons, ih]

theorem sum_zero_of_nil :
    ∀ l : List (String × List Card), (∀ p ∈ l, p.2 = []) →
      (l.map (fun p => p.2.length)).sum = 0 := by
  intro l
  induction l with
  | nil => intro _; rfl
  | cons hd t ih =>
    intro h
    simp only [List.map_cons, List.sum_cons]
    rw [h hd (List.mem_cons_self hd t), ih (fun p hp => h p (List.mem_cons_of_mem hd hp))]
    rfl

theorem cardTotal_drawOneForSeat (r : Room) (seat : Seat) :
    cardTotal (drawOneForSeat r seat).1 = cardTotal r := by
  unfold drawOneForSeat
  split
  · rfl
  next sid hseat =>
    split
    · rfl
    next hand hget =>
      split
      · rfl
      · split
        · rfl
        next h4 =>
          split
          · rfl
          next card hlast =>
            have hsum := sum_alistSet sid (hand ++ [card]) r.hands hand hget
            split
            · simp only [cardTotal, List.length_dropLast, List.length_append,
                List.length_cons, List.length_nil] at hsum ⊢
              omega
            · simp only [cardTotal, List.length_dropLast, List.length_append,
                List.length_cons, List.length_nil] at hsum ⊢
              omega

theorem cardTotal_finishDrawingPhase (r : Room) :
    cardTotal (finishDrawingPhase r) = cardTotal r := rfl

theorem cardTotal_drawCardH (r : Room) (sid : String) :
    cardTotal (drawCardH r sid).1 = cardTotal r := by
  unfold drawCardH
  split
  · rfl
  · split
    · rfl
    next seat hseat =>
      split
      · rfl
      · split
        · exact cardTotal_finishDrawingPhase r
        · have hdraw := cardTotal_drawOneForSeat r seat
          split
          next r1 e heq =>
            rw [heq] at hdraw
            exact hdraw
          next r1 heq =>
            rw [heq] at hdraw
            split
            · exact hdraw
            · exact hdraw

theorem cardTotal_autoDealLoop :
    ∀ (fuel : Nat) (r : Room) (seat : Seat),
      cardTotal (autoDealLoop fuel r seat).1 = cardTotal r := by
  intro fuel
  induction fuel with
  | zero => intro r seat; rfl
  | succ n ih =>
    intro r seat
    unfold autoDealLoop
    split
    · rfl
    · split
      · rfl
      · split
        · rfl
        · split
          · exact (ih _ _).trans (cardTotal_drawOneForSeat r seat)
          · exact ih _ _

theorem cardTotal_autoDealH (r : Room) (sid : String) :
    cardTotal (autoDealH r sid).1 = cardTotal r := by
  unfold autoDealH
  split
  · rfl
  · split
    · rfl
    · have hloop := cardTotal_autoDealLoop 2000 r (r.currentTurn.getD .N)
      split
      next r1 b heq =>
        rw [heq] at hloop
        exact hloop
      next r1 seat heq =>
        rw [heq] at hloop
        exact hloop

theorem cardTotal_undoDrawH (r : Room) (sid : String) :
    cardTotal (undoDrawH r sid).1 = cardTotal r := by
  unfold undoDrawH
  split
  · rfl
  next last =>
    split
    · rfl
    · split
      · rfl
      · split
        · rfl
        next hand hget =>
          split
          · rfl
          next card hand' hrem =>
            have hsum := sum_alistSet sid hand' r.hands hand hget
            have hlen := removeFirstById_length hrem
            split
            · simp only [cardTotal, List.length_append, List.length_cons,
                List.length_nil] at hsum ⊢
              omega
            · simp only [cardTotal, List.length_append, List.length_cons,
                List.length_nil] at hsum ⊢
              omega

theorem cardTotal_startBottomEightH (r : Room) (sid : String) :
    cardTotal (startBottomEightH r sid).1 = cardTotal r := by
  unfold startBottomEightH
  split
  · rfl
  · split
    · rfl
    · split
      · rfl
      · split
        · rfl
        next hand hget =>
          have hsum := sum_alistSet sid (hand ++ r.bottomEight) r.hands hand hget
          simp only [cardTotal, List.length_append, List.length_nil] at hsum ⊢
          omega

theorem cardTotal_clearTrickH (r : Room) :
    cardTotal (clearTrickH r) = cardTotal r := by
  simp only [clearTrickH, cardTotal, List.length_append]
  have h1 := sum_lengths r.table
  have h2 : ((r.table.map (fun p => (p.1, ([] : List Card)))).map
      (fun p => p.2.length)).sum = 0 := by
    apply sum_zero_of_nil
    intro p hp
    rw [List.mem_map] at hp
    obtain ⟨q, _, hq⟩ := hp
    rw [← hq]
  omega


theorem cardTotal_discard_success (r : Room) (sid : String) (ids : List String)
    (hbot : r.bottomEight = []) :
    ∀ r' : Room, discardBottomEightH r sid ids = (r', none) →
      cardTotal r' = cardTotal r := by
  intro r' heq
  unfold discardBottomEightH at heq
  split at heq
  · exact absurd (congrArg Prod.snd heq) (by simp)
  · split at heq
    · exact absurd (congrArg Prod.snd heq) (by simp)
    · split at heq
      · exact absurd (congrArg Prod.snd heq) (by simp)
      · split at heq
        · exact absurd (congrArg Prod.snd heq) (by simp)
        next hand hget =>
          split at heq
          · exact absurd (congrArg Prod.snd heq) (by simp)
          next h8 =>
            have hr' := congrArg Prod.fst heq
            simp only at hr'
            subst hr'
            have hsum := sum_alistSet sid (spliceMany ids hand).1 r.hands hand hget
            have hsplice := spliceMany_length ids hand
            simp only [cardTotal, hbot, List.length_nil]
            omega

theorem cardTotal_playCardsH (r : Room) (sid : String) (ids : List String)
    (htab : alistGet sid r.table = some [] ∨ alistGet sid r.table = none) :
    cardTotal (playCardsH r sid ids).1 = cardTotal r := by
  unfold playCardsH
  split
  · rfl
  · split
    · rfl
    next seat hseat =>
      split
      · rfl
      · split
        next hand hget =>
          have hsum := sum_alistSet sid (spliceMany ids hand).1 r.hands hand hget
          have hsplice := spliceMany_length ids hand
          rcases htab with htab | htab
          · have htsum := sum_alistSet sid (spliceMany ids hand).2 r.table [] htab
            simp only [cardTotal, List.length_nil] at htsum hsum ⊢
            omega
          · have htsum := sum_alistSet_absent sid (spliceMany ids hand).2 r.table htab
            simp only [cardTotal, List.length_nil] at htsum hsum ⊢
            omega
        next hget =>
          rw [spliceMany_nil]
          rcases htab with htab | htab
          · have htsum := sum_alistSet sid ([] : List Card) r.table [] htab
            simp only [cardTotal, List.length_nil] at htsum ⊢
            omega
          · have htsum := sum_alistSet_absent sid ([] : List Card) r.table htab
            simp only [cardTotal, List.length_nil] at htsum ⊢
            omega

theorem cardTotal_reshuffle_success (r : Room) (sid : String) (oracle : Nat → Nat)
    (hnd : keysNodup r.hands)
    (hunseated : ∀ p ∈ r.hands, (∀ st : Seat, r.seats.get st ≠ some p.1) → p.2 = []) :
    ∀ r' : Room, reshuffleRoundH r sid oracle = (r', none) →
      cardTotal r' = 108 := by
  intro r' heq
  have hlen : (buildTwoDecks oracle).length = 108 :=
    (buildTwoDecks_perm oracle).length_eq.trans (by decide)
  unfold reshuffleRoundH at heq
  split at heq
  · exact absurd (congrArg Prod.snd heq) (by simp)
  · split at heq
    · exact absurd (congrArg Prod.snd heq) (by simp)
    · split at heq
      · exact absurd (congrArg Prod.snd heq) (by simp)
      · have hr' := congrArg Prod.fst heq
        simp only at hr'
        subst hr'
        generalize hD : buildTwoDecks oracle = D at hlen ⊢
        have hframe := clear_foldl_frame seatList
          { r with
            deck := D.drop 8
            bottomEight := D.take 8
            discards := []
            table := []
            lastAction := none
            trumpSuit := none
            startingPlayer := none
            phase := Phase.drawing
            currentTurn := some Seat.N }
        have hentries := clear_foldl_entries seatList
          { r with
            deck := D.drop 8
            bottomEight := D.take 8
            discards := []
            table := []
            lastAction := none
            trumpSuit := none
            startingPlayer := none
            phase := Phase.drawing
            currentTurn := some Seat.N }
          hnd (by exact List.nodup_nil)
        have hhands : ∀ p ∈ (seatList.foldl clearSeatEntry
            { r with
              deck := D.drop 8
              bottomEight := D.take 8
              discards := []
              table := []
              lastAction := none
              trumpSuit := none
              startingPlayer := none
              phase := Phase.drawing
              currentTurn := some Seat.N }).hands, p.2 = [] := by
          intro p hp
          rcases hentries.1 p hp with h | ⟨h, h4⟩
          · exact h
          · exact hunseated p h (fun st => h4 st (seatList_complete st))
        have htable : ∀ p ∈ (seatList.foldl clearSeatEntry
            { r with
              deck := D.drop 8
              bottomEight := D.take 8
              discards := []
              table := []
              lastAction := none
              trumpSuit := none
              startingPlayer := none
              phase := Phase.drawing
              currentTurn := some Seat.N }).table, p.2 = [] := by
          intro p hp
          rcases hentries.2 p hp with h | ⟨h, _⟩
          · exact h
          · exact absurd h (List.not_mem_nil p)
        simp only [cardTotal]
        rw [hframe.deck, hframe.bottom, hframe.discards,
          sum_zero_of_nil _ hhands, sum_zero_of_nil _ htable]
        simp only [List.length_drop, List.length_take, List.length_nil]
        omega


/-- C1 amended: the 108-card total `drawPile + Σhands + bottomPile +
Σtable + discards` is preserved by `draw_card`, `auto_deal`,
`undo_draw`, `start_bottom_eight` and `clear_trick` unconditionally, by
a successful `discard_bottom_eight` (the bottom pile is empty in the
discarding phase), and by `play_cards` when the caller's table entry is
empty or absent; a successful `reshuffle_round` re-establishes exactly
108.  The exceptions excluded by the counterexample are `disconnect`
(the leaver's hand and table entries are deleted), a failed
`discard_bottom_eight` with partially-resolving identifiers (the
resolved cards are destroyed) and a `play_cards` that overwrites a
non-empty table entry. -/
theorem conservation_amended :
    (∀ (r : Room) (sid : String), cardTotal (drawCardH r sid).1 = cardTotal r) ∧
    (∀ (r : Room) (sid : String), cardTotal (autoDealH r sid).1 = cardTotal r) ∧
    (∀ (r : Room) (sid : String), cardTotal (undoDrawH r sid).1 = cardTotal r) ∧
    (∀ (r : Room) (sid : String),
      cardTotal (startBottomEightH r sid).1 = cardTotal r) ∧
    (∀ (r : Room) (sid : String) (ids : List String) (r' : Room),
      r.bottomEight = [] → discardBottomEightH r sid ids = (r', none) →
      cardTotal r' = cardTotal r) ∧
    (∀ (r : Room) (sid : String) (oracle : Nat → Nat) (r' : Room),
      keysNodup r.hands →
      (∀ p ∈ r.hands, (∀ st : Seat, r.seats.get st ≠ some p.1) → p.2 = []) →
      reshuffleRoundH r sid oracle = (r', none) →
      cardTotal r' = 108) ∧
    (∀ (r : Room) (sid : String) (ids : List String),
      alistGet sid r.table = some [] ∨ alistGet sid r.table = none →
      cardTotal (playCardsH r sid ids).1 = cardTotal r) ∧
    (∀ r : Room, cardTotal (clearTrickH r) = cardTotal r) :=
  ⟨cardTotal_drawCardH, cardTotal_autoDealH, cardTotal_undoDrawH,
    cardTotal_startBottomEightH,
    fun r sid ids r' hb he => cardTotal_discard_success r sid ids hb r' he,
    fun r sid oracle r' hnd hun he =>
      cardTotal_reshuffle_success r sid oracle hnd hun r' he,
    cardTotal_playCardsH, cardTotal_clearTrickH⟩

def idOracle : Nat → Nat := fun i => i

def cexR0 : Room := initRoom "CEX" "host" (buildTwoDecks idOracle)

def cexR1 : Room := (sitH cexR0 "p1" .N "A").1

def cexR2 : Room := (sitH cexR1 "p2" .E "B").1

def cexR3 : Room := (sitH cexR2 "p3" .S "C").1

def cexR4 : Room := (sitH cexR3 "p4" .W "D").1

def cexR5 : Room := (drawCardH cexR4 "p1").1

set_option maxRecDepth 100000 in
/-- C1 counterexample: in a reachable started room (created, four sits,
one draw) the player holding one card disconnects; the card total drops
from 108 to 107, so the claimed invariant fails for the `disconnect`
operation. -/
theorem conservation_disconnect_cex :
    Reachable cexR5 ∧ cexR5.started = true ∧ cardTotal cexR5 = 108 ∧
    cardTotal (disconnectH cexR5 "p1") = 107 := by
  refine ⟨⟨"CEX", "host", idOracle, ?_⟩, by decide, by decide, by decide⟩
  exact Relation.ReflTransGen.tail
    (Relation.ReflTransGen.tail
      (Relation.ReflTransGen.tail
        (Relation.ReflTransGen.tail
          (Relation.ReflTransGen.tail Relation.ReflTransGen.refl
            (Step.sit cexR0 "p1" Seat.N "A"))
          (Step.sit cexR1 "p2" Seat.E "B"))
        (Step.sit cexR2 "p3" Seat.S "C"))
      (Step.sit cexR3 "p4" Seat.W "D"))
    (Step.draw cexR4 "p1")

/-- A discarding-phase room whose starting player holds exactly the 8
cards about to be discarded, with an empty bottom pile. -/
def c1discW : Room :=
  ⟨"C1", ⟨some "p1", none, none, none⟩, [],
    [("p1", [⟨"b1", some "S", 3, none⟩, ⟨"b2", some "S", 4, none⟩,
             ⟨"b3", some "S", 6, none⟩, ⟨"b4", some "S", 7, none⟩,
             ⟨"b5", some "H", 3, none⟩, ⟨"b6", some "H", 4, none⟩,
             ⟨"b7", some "H", 6, none⟩, ⟨"b8", some "H", 7, none⟩])],
    [("p1", [])], [], [], [], some "S", some .N, none,
    .discarding_bottom_eight, true, 0, none⟩

def c1ids : List String := ["b1", "b2", "b3", "b4", "b5", "b6", "b7", "b8"]

/-- A discarding-phase room eligible for a reshuffle. -/
def c1resW : Room :=
  ⟨"C1R", ⟨some "p1", some "p2", none, none⟩, [],
    [("p1", [⟨"h1", some "S", 5, none⟩]), ("p2", [])],
    [("p1", []), ("p2", [])], [], [⟨"h2", some "D", 4, none⟩], [],
    some "S", some .N, none, .discarding_bottom_eight, true, 0, none⟩

/-- A playing-phase room whose current player has an empty table entry. -/
def c1playW : Room :=
  ⟨"C1P", ⟨some "p1", none, none, none⟩, [],
    [("p1", [⟨"pc1", some "C", 10, none⟩])], [("p1", [])], [], [], [],
    some "S", some .N, some .N, .playing, true, 0, none⟩

set_option maxRecDepth 100000 in
/-- C1 witness: the conditional clauses of the amended conservation
statement applied at concrete rooms. -/
theorem conservation_amended_witness :
    cardTotal (discardBottomEightH c1discW "p1" c1ids).1 = cardTotal c1discW ∧
    cardTotal (reshuffleRoundH c1resW "p1" idOracle).1 = 108 ∧
    cardTotal (playCardsH c1playW "p1" ["pc1"]).1 = cardTotal c1playW := by
  refine ⟨?_, ?_, ?_⟩
  · exact conservation_amended.2.2.2.2.1 c1discW "p1" c1ids
      (discardBottomEightH c1discW "p1" c1ids).1 (by decide) (by decide)
  · exact conservation_amended.2.2.2.2.2.1 c1resW "p1" idOracle
      (reshuffleRoundH c1resW "p1" idOracle).1 (by decide) (by decide) (by decide)
  · exact conservation_amended.2.2.2.2.2.2.1 c1playW "p1" ["pc1"] (by decide)

end Eighty
